import Mathlib

/-!
Verification of the location-order store, destination parsing and the
printer-slot swap planner of the `fil` repository.

The Go code is embedded shallowly:

* Go slices of ints become `List Int`; the `map[string][]int` order store
  becomes an association list `List (String × List Int)` (a Go map is the
  association list with pairwise-distinct keys; Go's nondeterministic map
  iteration order is modelled by quantifying over permutations where it
  matters).
* `time.Time` values of the `LastUsed` field become `Option Nat`
  (`none` is the zero value, `IsZero`; `Before` is `<` on the `some`s).
* float weights are only ever compared (never added) in the code under
  verification, so they are embedded as rationals.
* Display-only fields of the Go structs (names, colors, vendor data) are
  omitted; no claim mentions them.
-/

namespace Fil

/-- The index clamping of `InsertAt`: `i < 0` becomes `0`, `i > len` becomes
`len`. -/
def clampIdx (len : Nat) (i : Int) : Nat :=
  (if i < 0 then 0 else if i > (len : Int) then (len : Int) else i).toNat

/-- `InsertAt` from `cmd/move.go`: inserts `val` at index `i` (0-based) into
`s`, clamping `i` into `[0, len(s)]`, shifting later elements right. -/
def InsertAt (s : List Int) (i : Int) (val : Int) : List Int :=
  s.take (clampIdx s.length i) ++ val :: s.drop (clampIdx s.length i)

/-- `RemoveFromAllOrders` from `cmd/move.go`: removes `id` from every
location's list. -/
def RemoveFromAllOrders (orders : List (String × List Int)) (id : Int) :
    List (String × List Int) :=
  orders.map (fun p => (p.1, p.2.filter (fun v => v ≠ id)))

/-- Reading `orders[loc]` on a Go map: the entry's list, or `nil` (here `[]`)
when the key is absent. -/
def ordersGet (orders : List (String × List Int)) (loc : String) : List Int :=
  ((orders.find? (fun p => p.1 == loc)).map Prod.snd).getD []

/-- Writing `orders[loc] = l` on a Go map: replace the entry if the key is
present, otherwise add it. -/
def ordersSet (orders : List (String × List Int)) (loc : String) (l : List Int) :
    List (String × List Int) :=
  match orders with
  | [] => [(loc, l)]
  | p :: rest =>
      if p.1 == loc then (loc, l) :: rest else p :: ordersSet rest loc l

/-- Destination spec from `cmd/move.go`: canonical location, optional
1-based position. -/
structure DestSpec where
  location : String
  pos : Int
  hasPos : Bool
deriving DecidableEq, Repr

/-- The position clamping of `runMove`: `p < 1` becomes `1`, `p > len+1`
becomes `len+1`. -/
def clampPos (len : Nat) (p : Int) : Int :=
  if p < 1 then 1 else if p > (len : Int) + 1 then (len : Int) + 1 else p

/-- The insert-or-append step of `runMove` (`cmd/move.go` lines 209-223),
acting on the destination location's list after `RemoveFromAllOrders`. -/
def placeIntoList (list : List Int) (d : DestSpec) (id : Int) : List Int :=
  if d.hasPos then InsertAt list (clampPos list.length d.pos - 1) id
  else list ++ [id]

/-- The composed placement of `runMove`: remove `id` from every list, then
insert/append it into the destination list. -/
def placeSpool (orders : List (String × List Int)) (d : DestSpec) (id : Int) :
    List (String × List Int) :=
  ordersSet (RemoveFromAllOrders orders id) d.location
    (placeIntoList (ordersGet (RemoveFromAllOrders orders id) d.location) d id)

/-- Go `unicode.IsSpace`, restricted to the scalar values it accepts. -/
def goIsSpace (c : Char) : Bool :=
  (0x09 ≤ c.toNat && c.toNat ≤ 0x0D) || c.toNat = 0x20 || c.toNat = 0x85 ||
  c.toNat = 0xA0 || c.toNat = 0x1680 ||
  (0x2000 ≤ c.toNat && c.toNat ≤ 0x200A) || c.toNat = 0x2028 ||
  c.toNat = 0x2029 || c.toNat = 0x202F || c.toNat = 0x205F || c.toNat = 0x3000

/-- Go `strings.TrimSpace`. -/
def trimSpace (s : String) : String :=
  String.mk (((s.data.dropWhile goIsSpace).reverse.dropWhile goIsSpace).reverse)

/-- ASCII lowering; `strings.EqualFold` against the literal `"<empty>"` only
ever distinguishes ASCII case. -/
def lowerAscii (c : Char) : Char :=
  if 'A' ≤ c ∧ c ≤ 'Z' then Char.ofNat (c.toNat + 32) else c

/-- Go `strings.EqualFold`, as it behaves on comparisons with `"<empty>"`. -/
def eqFold (a b : String) : Bool :=
  a.data.map lowerAscii == b.data.map lowerAscii

/-- ASCII raising, modelling `strings.ToUpper` for alias-table keys. -/
def upperAscii (c : Char) : Char :=
  if 'a' ≤ c ∧ c ≤ 'z' then Char.ofNat (c.toNat - 32) else c

/-- Go `strings.ToUpper`. -/
def goToUpper (s : String) : String := String.mk (s.data.map upperAscii)

/-- `MapToAlias` from `cmd/move.go`: look up the upper-cased token in the
alias table; on a miss return the token unchanged. -/
def MapToAlias (aliases : List (String × String)) (t : String) : String :=
  match aliases.find? (fun p => p.1 == goToUpper t) with
  | some p => p.2
  | none => t

/-- Index of the last `':'` or `'@'` in the character list
(`strings.LastIndexAny(in, "@:")`; `none` plays the role of `-1`). -/
def lastSepIdx (l : List Char) : Option Nat :=
  (l.reverse.findIdx? (fun c => c = ':' ∨ c = '@')).map (fun j => l.length - 1 - j)

/-- Decimal digit test for `strconv.Atoi`. -/
def isDigitCh (c : Char) : Bool := '0' ≤ c && c ≤ '9'

/-- Value of a decimal digit character. -/
def digitVal (c : Char) : Nat := c.toNat - 48

/-- Go `strconv.Atoi`: optional sign, one or more decimal digits, nothing
else, result within the 64-bit int range (out-of-range input is an error). -/
def goAtoi (s : String) : Option Int :=
  let core : List Char → Option Int := fun ds =>
    if ds ≠ [] ∧ ds.all isDigitCh then
      some ((ds.foldl (fun a c => 10 * a + digitVal c) 0 : Nat) : Int)
    else none
  let signed : Option Int :=
    match s.data with
    | '-' :: rest => (core rest).map (fun n => -n)
    | '+' :: rest => core rest
    | l => core l
  match signed with
  | some n => if -(2 ^ 63) ≤ n ∧ n ≤ 2 ^ 63 - 1 then some n else none
  | none => none

/-- The location part before the last separator: trimmed, with a
case-insensitive `"<empty>"` replaced by `""`. -/
def locPartAt (tok : String) (idx : Nat) : String :=
  if eqFold (trimSpace (String.mk (tok.data.take idx))) "<empty>" then ""
  else trimSpace (String.mk (tok.data.take idx))

/-- The body of `ParseDestSpec` acting on the already-trimmed token. -/
def parseDestTok (aliases : List (String × String)) (tok : String) :
    Except String DestSpec :=
  if tok == "" then .ok ⟨"", 0, false⟩
  else if eqFold tok "<empty>" then .ok ⟨"", 0, false⟩
  else
    match lastSepIdx tok.data with
    | none => .ok ⟨MapToAlias aliases tok, 0, false⟩
    | some idx =>
        if idx = 0 ∨ idx = tok.data.length - 1 then
          .ok ⟨MapToAlias aliases tok, 0, false⟩
        else
          match goAtoi (trimSpace (String.mk (tok.data.drop (idx + 1)))) with
          | none => .ok ⟨MapToAlias aliases tok, 0, false⟩
          | some p => .ok ⟨MapToAlias aliases (locPartAt tok idx), p, true⟩

/-- `ParseDestSpec` from `cmd/move.go`: parses a destination token that may
carry a 1-based slot position after the last `':'` or `'@'`. -/
def ParseDestSpec (aliases : List (String × String)) (input : String) :
    Except String DestSpec :=
  parseDestTok aliases (trimSpace input)

/-- Total number of occurrences of `v` across all location lists. -/
def countTotal (orders : List (String × List Int)) (v : Int) : Nat :=
  (orders.map (fun p => p.2.count v)).sum

/-- A spool snapshot (`models.FindSpool`): the fields the planner reads.
`lastUsed = none` is Go's zero `time.Time` (`IsZero`). -/
structure Spool where
  id : Int
  filamentId : Int
  remainingWeight : ℚ
  usedWeight : ℚ
  location : String
  lastUsed : Option Nat
  archived : Bool
deriving DecidableEq, Repr

/-- A filament requirement of one plate (`models.PlateRequirement`). -/
structure PlateRequirement where
  filamentID : Int
  amount : ℚ
deriving DecidableEq, Repr

/-- A plate of a project (`models.Plate`). -/
structure Plate where
  status : String
  needs : List PlateRequirement
deriving DecidableEq, Repr

/-- A project of a plan file (`models.Project`). -/
structure Project where
  status : String
  plates : List Plate
deriving DecidableEq, Repr

/-- A plan file (`models.PlanFile`). -/
structure PlanFile where
  projects : List Project
deriving DecidableEq, Repr

/-- Filament IDs of the not-yet-completed plates of one project, starting at
plate index `start` (`plan.go` lines 1744-1759, inner loop). -/
def projectNeededIDs (proj : Project) (start : Nat) : List Int :=
  if proj.status == "completed" then []
  else ((proj.plates.drop start).filter
    (fun pl => !(pl.status == "completed"))).flatMap
    (fun pl => pl.needs.map (fun r => r.filamentID))

/-- The needed-set scan of `planNextCmd` (`plan.go` lines 1740-1760) over a
project list: projects from `projectIdx` on, starting at `plateIdx` within
the first of them and at plate 0 in the later ones. -/
def computeNeededIDs (projects : List Project) (projectIdx plateIdx : Nat) :
    List Int :=
  match projects.drop projectIdx with
  | [] => []
  | proj :: rest =>
      projectNeededIDs proj plateIdx ++
        rest.flatMap (fun p => projectNeededIDs p 0)

/-- The needed-set as `planNextCmd` computes it for a whole session: it always
scans `discovered[0]`, whichever plan the chosen plate belongs to. -/
def sessionNeededIDs (discovered : List PlanFile) (projectIdx plateIdx : Nat) :
    List Int :=
  match discovered with
  | [] => []
  | d0 :: _ => computeNeededIDs d0.projects projectIdx plateIdx

/-- Modelled from the spec and claim wording (for comparison with
`sessionNeededIDs`): the filament IDs required by the chosen plate and by all
subsequent not-yet-completed plates of not-yet-completed projects **within
the plan the chosen plate belongs to**. -/
def claimNeededIDs (discovered : List PlanFile) (planIdx projectIdx plateIdx : Nat) :
    List Int :=
  match (discovered.drop planIdx) with
  | [] => []
  | dp :: _ =>
      match dp.projects.drop projectIdx with
      | [] => []
      | proj :: rest =>
          (match proj.plates.drop plateIdx with
           | [] => []
           | chosen :: laterPlates =>
               chosen.needs.map (fun r => r.filamentID) ++
                 (laterPlates.filter (fun pl => !(pl.status == "completed"))).flatMap
                   (fun pl => pl.needs.map (fun r => r.filamentID))) ++
            (rest.filter (fun p => !(p.status == "completed"))).flatMap
              (fun p => ((p.plates.filter (fun pl => !(pl.status == "completed"))).flatMap
                (fun pl => pl.needs.map (fun r => r.filamentID))))

/-- The combined neededness test of the eviction logic (`plan.go` lines
1937-1945 and 2017-2023): in the needed-set, or required by the current
plate. -/
def isNeededSpool (neededIDs : List Int) (plateNeeds : List PlateRequirement)
    (s : Spool) : Bool :=
  neededIDs.contains s.filamentId ||
    plateNeeds.any (fun r => s.filamentId == r.filamentID)

/-- Membership of a spool's location in the set of locations assigned to any
printer (`allPrinterLocations`, `plan.go` lines 1762-1768). -/
def spoolInPrinter (printerLocs : List String) (s : Spool) : Bool :=
  printerLocs.contains s.location

/-- One comparison step of best-spool selection (`plan.go` lines 1845-1875):
`true` when the loop replaces the current best by `s`. -/
def betterSpool (printerLocs : List String) (best s : Spool) : Bool :=
  if spoolInPrinter printerLocs best && !(spoolInPrinter printerLocs s) then true
  else if !(spoolInPrinter printerLocs best) && spoolInPrinter printerLocs s then false
  else if decide (best.usedWeight = 0) && decide (0 < s.usedWeight) then true
  else if (decide (0 < best.usedWeight) == decide (0 < s.usedWeight)) &&
      decide (s.id < best.id) then true
  else false

/-- The accumulator step of best-spool selection: the first candidate is
taken as-is, later ones via `betterSpool`. -/
def bestStep (printerLocs : List String) (acc : Option Spool) (s : Spool) :
    Option Spool :=
  match acc with
  | none => some s
  | some b => if betterSpool printerLocs b s then some s else some b

/-- The candidate list of best-spool selection (`plan.go` lines 1834-1839). -/
def candidatesOf (allSpools : List Spool) (filId : Int) : List Spool :=
  allSpools.filter (fun s => !s.archived && s.filamentId == filId)

/-- Best-spool selection of `planNextCmd` (`plan.go` lines 1832-1875). -/
def bestSpoolSelect (printerLocs : List String) (allSpools : List Spool)
    (filId : Int) : Option Spool :=
  (candidatesOf allSpools filId).foldl (bestStep printerLocs) none

/-- First lexicographic component of the selection priority: in a printer
slot sorts after not-in-a-printer. -/
def spoolKeyP (printerLocs : List String) (s : Spool) : Nat :=
  if spoolInPrinter printerLocs s then 1 else 0

/-- Second lexicographic component: opened (nonzero used weight) sorts
before unopened. -/
def spoolKeyU (s : Spool) : Nat :=
  if 0 < s.usedWeight then 0 else 1

/-- The selection priority order: prefer not-in-any-printer, then opened,
then lowest spool ID. -/
def spoolPriorityLt (printerLocs : List String) (a b : Spool) : Prop :=
  spoolKeyP printerLocs a < spoolKeyP printerLocs b ∨
    (spoolKeyP printerLocs a = spoolKeyP printerLocs b ∧
      (spoolKeyU a < spoolKeyU b ∨ (spoolKeyU a = spoolKeyU b ∧ a.id < b.id)))

/-- One accumulator step of the substitute search for an under-supplied
loaded spool (`plan.go` lines 1802-1809). -/
def nextBestStep (filId loadedId : Int) (acc : Option Spool) (s : Spool) :
    Option Spool :=
  if !s.archived && s.filamentId == filId && !(s.id == loadedId) then
    match acc with
    | none => some s
    | some b => if b.remainingWeight < s.remainingWeight then some s else some b
  else acc

/-- The substitute search for an under-supplied loaded spool: highest
remaining weight among non-archived spools of the filament whose spool ID
differs from the loaded spool's. -/
def nextBestSelect (allSpools : List Spool) (filId loadedId : Int) : Option Spool :=
  allSpools.foldl (nextBestStep filId loadedId) none

/-- The LRU comparison of the eviction logic (`plan.go` lines 1953-1970,
1983-1988, 2030-2034, 2040-2044): `true` when the new timestamp `lj` makes a
strictly better eviction candidate than the current one `li` — both used and
`lj` strictly older, or current never used and new used. -/
def lruReplace : Option Nat → Option Nat → Bool
  | some li, some lj => decide (lj < li)
  | none, some _ => true
  | _, _ => false

/-- Eviction recency key: never-used (`none`) is treated as most recent. -/
def lruKey : Option Nat → WithTop Nat
  | none => ⊤
  | some t => (t : WithTop Nat)

/-- The zero value of the Go `FindSpool` struct. -/
def zeroSpool : Spool := ⟨0, 0, 0, 0, "", none, false⟩

/-- One step of choosing which spool to unload within the full target
location (`plan.go` lines 2014-2047). State: current candidate and the
`foundNonNeeded` flag; the initial candidate is the zero struct, recognised
by `Id == 0`. -/
def evictLocStep (needed : Spool → Bool) (st : Spool × Bool) (s : Spool) :
    Spool × Bool :=
  if needed s = false then
    if st.2 = false then (s, true)
    else (if lruReplace st.1.lastUsed s.lastUsed then s else st.1, true)
  else
    if st.2 = false then
      if st.1.id = 0 then (s, false)
      else (if lruReplace st.1.lastUsed s.lastUsed then s else st.1, false)
    else st

/-- The spool chosen to unload from the (full) target location. -/
def evictFromLoc (needed : Spool → Bool) (cands : List Spool) : Spool :=
  (cands.foldl (evictLocStep needed) (zeroSpool, false)).1

/-- One step of choosing the unload location when every slot is full
(`plan.go` lines 1937-1991). State: best location, best spool,
`foundNonNeeded`; the initial location is `""`, which is also the guard of
the fallback branch. The location component always equals the current
spool's location, because the loop only sees spools of the location being
scanned. -/
def evictLocSelStep (needed : Spool → Bool) (st : String × Spool × Bool)
    (s : Spool) : String × Spool × Bool :=
  if needed s = false then
    if st.2.2 = false then (s.location, s, true)
    else if lruReplace st.2.1.lastUsed s.lastUsed then (s.location, s, true) else st
  else
    if st.2.2 = false then
      if st.1 = "" then (s.location, s, false)
      else if lruReplace st.2.1.lastUsed s.lastUsed then (s.location, s, false) else st
    else st

/-- The location-major scan of `plan.go` lines 1929-1992: for each printer
location, fold over the loaded spools in that location. -/
def unloadLocSelect (needed : Spool → Bool) (printerLocs : List String)
    (loaded : List Spool) : String × Spool × Bool :=
  printerLocs.foldl
    (fun st loc =>
      (loaded.filter (fun s => s.location == loc)).foldl (evictLocSelStep needed) st)
    ("", zeroSpool, false)

/-- Number of loaded spools in a location. -/
def slotLoad (loaded : List Spool) (loc : String) : Nat :=
  (loaded.filter (fun s => s.location == loc)).length

/-- Declared capacity of a location, defaulting to 1
(`Cfg.LocationCapacity`). -/
def capacityOf (caps : List (String × Nat)) (loc : String) : Nat :=
  ((caps.find? (fun p => p.1 == loc)).map Prod.snd).getD 1

/-- Slot selection (`plan.go` lines 1900-1919): among the printer's
locations under capacity, the one with the fewest loaded spools; `""` with
sentinel `999` when none is under capacity. -/
def findOpenSlot (caps : List (String × Nat)) (printerLocs : List String)
    (loaded : List Spool) : String × Nat :=
  printerLocs.foldl
    (fun st loc =>
      if slotLoad loaded loc < capacityOf caps loc ∧ slotLoad loaded loc < st.2 then
        (loc, slotLoad loaded loc)
      else st)
    ("", 999)

/-- The eviction decision of one requirement (`plan.go` lines 1899-2048):
slot selection, then — when every slot is at capacity — unload-location
selection followed by the unload choice within that location, guarded by the
capacity re-check. `loaded1` and `loaded2` are the two iterations over the
`loadedSpools` map (Go map iteration order is arbitrary, so they may list
the same spools in different orders). -/
def evictNominate (needed : Spool → Bool) (caps : List (String × Nat))
    (printerLocs : List String) (loaded1 loaded2 : List Spool) : Option Spool :=
  if (findOpenSlot caps printerLocs loaded1).1 = "" then
    if (loaded2.filter
          (fun s => s.location == (unloadLocSelect needed printerLocs loaded1).1)).length ≥
        capacityOf caps (unloadLocSelect needed printerLocs loaded1).1 then
      some (evictFromLoc needed
        (loaded2.filter
          (fun s => s.location == (unloadLocSelect needed printerLocs loaded1).1)))
    else none
  else
    if (loaded2.filter
          (fun s => s.location == (findOpenSlot caps printerLocs loaded1).1)).length ≥
        capacityOf caps (findOpenSlot caps printerLocs loaded1).1 then
      some (evictFromLoc needed
        (loaded2.filter
          (fun s => s.location == (findOpenSlot caps printerLocs loaded1).1)))
    else none

/-- The spools occupying the printer's slots, in the location-major order in
which the unload-location loop scans them. -/
def slotSpools (printerLocs : List String) (loaded : List Spool) : List Spool :=
  printerLocs.flatMap (fun loc => loaded.filter (fun s => s.location == loc))

/-- Invariant of the unload-location scan after processing the spools in
`seen`. -/
def SelInv (needed : Spool → Bool) (seen : List Spool)
    (st : String × Spool × Bool) : Prop :=
  (st.2.2 = true ↔ ∃ s ∈ seen, needed s = false) ∧
  (st.2.2 = true →
    st.2.1 ∈ seen ∧ needed st.2.1 = false ∧ st.1 = st.2.1.location ∧
      ∀ s ∈ seen, needed s = false →
        ¬ lruKey s.lastUsed < lruKey st.2.1.lastUsed) ∧
  (st.2.2 = false → seen = [] → st = ("", zeroSpool, false)) ∧
  (st.2.2 = false → seen ≠ [] →
    st.2.1 ∈ seen ∧ st.1 = st.2.1.location ∧
      ∀ s ∈ seen, ¬ lruKey s.lastUsed < lruKey st.2.1.lastUsed)

/-- Invariant of the unload choice within the target location after
processing the spools in `seen`. -/
def LocInv (needed : Spool → Bool) (seen : List Spool) (st : Spool × Bool) : Prop :=
  (st.2 = true ↔ ∃ s ∈ seen, needed s = false) ∧
  (st.2 = true →
    st.1 ∈ seen ∧ needed st.1 = false ∧
      ∀ s ∈ seen, needed s = false →
        ¬ lruKey s.lastUsed < lruKey st.1.lastUsed) ∧
  (st.2 = false → seen = [] → st = (zeroSpool, false)) ∧
  (st.2 = false → seen ≠ [] →
    st.1 ∈ seen ∧ ∀ s ∈ seen, ¬ lruKey s.lastUsed < lruKey st.1.lastUsed)

/-- Lowercase hex digit, as Go's `encoding/json` emits in `\u00XX`. -/
def hexDigitChar (n : Nat) : Char :=
  if n < 10 then Char.ofNat (48 + n) else Char.ofNat (87 + n)

/-- Go `encoding/json` string escaping (HTML escaping on, as under
`json.Marshal`): quote, backslash, `\n`/`\r`/`\t`, other control characters
as `\u00XX`, `<`/`>`/`&` as `\u00XX`, U+2028/U+2029 as `\u202X`; every other
character is emitted as itself. -/
def escapeChar (c : Char) : List Char :=
  if c = '"' then ['\\', '"']
  else if c = '\\' then ['\\', '\\']
  else if c = '\n' then ['\\', 'n']
  else if c = '\r' then ['\\', 'r']
  else if c = '\t' then ['\\', 't']
  else if c = '<' ∨ c = '>' ∨ c = '&' then
    ['\\', 'u', '0', '0', hexDigitChar (c.toNat / 16), hexDigitChar (c.toNat % 16)]
  else if c.toNat < 0x20 then
    ['\\', 'u', '0', '0', hexDigitChar (c.toNat / 16), hexDigitChar (c.toNat % 16)]
  else if c.toNat = 0x2028 ∨ c.toNat = 0x2029 then
    ['\\', 'u', '2', '0', '2', hexDigitChar (c.toNat % 16)]
  else [c]

/-- A JSON string literal: quoted, characters escaped. -/
def renderString (s : String) : List Char :=
  '"' :: (s.data.flatMap escapeChar ++ ['"'])

/-- Decimal digit character. -/
def digChar (d : Nat) : Char := Char.ofNat (48 + d)

/-- Decimal rendering of a natural number, big-endian. -/
def renderNat (m : Nat) : List Char :=
  if m = 0 then ['0'] else (Nat.digits 10 m).reverse.map digChar

/-- Decimal rendering of an integer, as Go marshals an `int`. -/
def renderInt (n : Int) : List Char :=
  if n < 0 then '-' :: renderNat n.natAbs else renderNat n.toNat

/-- Comma-join. -/
def joinComma : List (List Char) → List Char
  | [] => []
  | [x] => x
  | x :: xs => x ++ ',' :: joinComma xs

/-- A JSON array of integers, as Go marshals `[]int`. -/
def renderIntList (v : List Int) : List Char :=
  '[' :: (joinComma (v.map renderInt) ++ [']'])

/-- One `"key":[...]` member. -/
def renderMember (p : String × List Int) : List Char :=
  renderString p.1 ++ ':' :: renderIntList p.2

/-- The JSON object Go's `json.Marshal` produces for the order map; a Go map
marshals with its keys in sorted order, so the canonical association list
(keys strictly sorted) renders in list order. -/
def renderOrdersChars (m : List (String × List Int)) : List Char :=
  '{' :: (joinComma (m.map renderMember) ++ ['}'])

/-- The `value` string of `PostSettingObject` (`api/client.go` line 458):
`string(json.Marshal(orders))`. -/
def saveOrdersValue (m : List (String × List Int)) : String :=
  String.mk (renderOrdersChars m)

/-- The raw JSON of the settings entry as stored and returned by the
service: the value string as a JSON string literal (the double encoding). -/
def saveOrdersWire (m : List (String × List Int)) : List Char :=
  renderString (saveOrdersValue m)

/-- Hex digit value. -/
def hexVal (c : Char) : Option Nat :=
  if '0' ≤ c ∧ c ≤ '9' then some (c.toNat - 48)
  else if 'a' ≤ c ∧ c ≤ 'f' then some (c.toNat - 87)
  else if 'A' ≤ c ∧ c ≤ 'F' then some (c.toNat - 55)
  else none

/-- JSON string-body scanner: unescapes until the closing quote, returning
the decoded characters and the remaining input. -/
def parseStrBody : List Char → Option (List Char × List Char)
  | [] => none
  | c :: rest =>
    if c = '"' then some ([], rest)
    else if c = '\\' then
      match rest with
      | [] => none
      | e :: rest2 =>
        if e = '"' then (parseStrBody rest2).map (fun p => ('"' :: p.1, p.2))
        else if e = '\\' then (parseStrBody rest2).map (fun p => ('\\' :: p.1, p.2))
        else if e = '/' then (parseStrBody rest2).map (fun p => ('/' :: p.1, p.2))
        else if e = 'b' then (parseStrBody rest2).map (fun p => (Char.ofNat 8 :: p.1, p.2))
        else if e = 'f' then (parseStrBody rest2).map (fun p => (Char.ofNat 12 :: p.1, p.2))
        else if e = 'n' then (parseStrBody rest2).map (fun p => ('\n' :: p.1, p.2))
        else if e = 'r' then (parseStrBody rest2).map (fun p => ('\r' :: p.1, p.2))
        else if e = 't' then (parseStrBody rest2).map (fun p => ('\t' :: p.1, p.2))
        else if e = 'u' then
          match rest2 with
          | h1 :: h2 :: h3 :: h4 :: rest3 =>
            match hexVal h1, hexVal h2, hexVal h3, hexVal h4 with
            | some a, some b, some c2, some d =>
              (parseStrBody rest3).map
                (fun p => (Char.ofNat (4096 * a + 256 * b + 16 * c2 + d) :: p.1, p.2))
            | _, _, _, _ => none
          | _ => none
        else none
    else (parseStrBody rest).map (fun p => (c :: p.1, p.2))

/-- JSON string literal parser. -/
def parseString (l : List Char) : Option (String × List Char) :=
  match l with
  | '"' :: rest => (parseStrBody rest).map (fun p => (String.mk p.1, p.2))
  | _ => none

/-- Maximal run of decimal digits. -/
def parseDigits : List Char → (List Nat × List Char)
  | [] => ([], [])
  | c :: rest =>
      if isDigitCh c then (digitVal c :: (parseDigits rest).1, (parseDigits rest).2)
      else ([], c :: rest)

/-- Big-endian digit-list value. -/
def natFromDigits (ds : List Nat) : Nat := ds.foldl (fun a d => 10 * a + d) 0

/-- One or more decimal digits. -/
def parseNat (l : List Char) : Option (Nat × List Char) :=
  if (parseDigits l).1 = [] then none
  else some (natFromDigits (parseDigits l).1, (parseDigits l).2)

/-- A decimal integer with optional leading minus. -/
def parseInt (l : List Char) : Option (Int × List Char) :=
  if l.head? = some '-' then (parseNat l.tail).map (fun p => (-(p.1 : Int), p.2))
  else (parseNat l).map (fun p => ((p.1 : Int), p.2))

/-- After the first element of a JSON int array: a `]` ends the array, a `,`
is followed by the next integer. The fuel argument bounds the number of
elements still to read; `parseOrders` passes the input length, which always
suffices since every element consumes at least one character. -/
def parseIntListTailF : Nat → List Char → Option (List Int × List Char)
  | 0, _ => none
  | f + 1, l =>
    if l.head? = some ']' then some ([], l.tail)
    else if l.head? = some ',' then
      (parseInt l.tail).bind (fun q =>
        (parseIntListTailF f q.2).map (fun p => (q.1 :: p.1, p.2)))
    else none

/-- A JSON array of integers: `[` then either `]` or a first integer and the
comma-separated tail. -/
def parseIntListF (f : Nat) (l : List Char) : Option (List Int × List Char) :=
  match l with
  | '[' :: rest =>
    if rest.head? = some ']' then some ([], rest.tail)
    else
      (parseInt rest).bind (fun q =>
        (parseIntListTailF f q.2).map (fun p => (q.1 :: p.1, p.2)))
  | _ => none

/-- After the first member of a JSON object of int arrays: a `}` ends the
object, a `,` is followed by the next `"key":[...]` member. -/
def parseMembersTailF : Nat → List Char → Option (List (String × List Int) × List Char)
  | 0, _ => none
  | f + 1, l =>
    if l.head? = some '}' then some ([], l.tail)
    else if l.head? = some ',' then
      (parseString l.tail).bind (fun q =>
        if q.2.head? = some ':' then
          (parseIntListF f q.2.tail).bind (fun w =>
            (parseMembersTailF f w.2).map (fun p => ((q.1, w.1) :: p.1, p.2)))
        else none)
    else none

/-- A JSON object mapping string keys to int arrays: `{` then either `}` or
a first member and the comma-separated tail. -/
def parseOrdersChars (f : Nat) (l : List Char) : Option (List (String × List Int) × List Char) :=
  match l with
  | '{' :: rest =>
    if rest.head? = some '}' then some ([], rest.tail)
    else
      (parseString rest).bind (fun q =>
        if q.2.head? = some ':' then
          (parseIntListF f q.2.tail).bind (fun w =>
            (parseMembersTailF f w.2).map (fun p => ((q.1, w.1) :: p.1, p.2)))
        else none)
  | _ => none

/-- `json.Unmarshal([]byte(rawString), &orders)` (`move.go` line 378): the
whole value string must parse as one object with nothing left over. -/
def parseOrders (s : String) : Option (List (String × List Int)) :=
  match parseOrdersChars s.data.length s.data with
  | some (m, []) => some m
  | _ => none

/-- `LoadLocationOrders` on the stored wire bytes (`move.go` lines 370-381):
unwrap the JSON string literal carrying the value (`json.Unmarshal(entry.Value,
&rawString)`), return the empty map when the value string is empty, otherwise
parse the value string as the order object. The whole wire must be consumed. -/
def loadOrdersWire (wire : List Char) : Option (List (String × List Int)) :=
  match parseString wire with
  | some (s, []) => if s = "" then some [] else parseOrders s
  | _ => none

theorem count_filter_ne (l : List Int) (id v : Int) :
    (l.filter (fun x => x ≠ id)).count v = if v = id then 0 else l.count v := by
  by_cases hv : v = id
  · subst hv
    simp only [if_true]
    refine List.count_eq_zero.mpr ?_
    simp
  · simp only [hv, if_false]
    induction l with
    | nil => simp
    | cons a t ih =>
        rw [List.filter_cons]
        by_cases ha : a = id
        · rw [if_neg (by simp [ha]), ih, List.count_cons,
            if_neg (by simp only [ha, beq_iff_eq]; exact fun hh => hv hh.symm)]
          omega
        · rw [if_pos (by simp [ha]), List.count_cons, List.count_cons, ih]

theorem ordersGet_cons (p : String × List Int) (t : List (String × List Int))
    (loc : String) :
    ordersGet (p :: t) loc = if p.1 == loc then p.2 else ordersGet t loc := by
  by_cases h : p.1 == loc <;> simp [ordersGet, List.find?_cons, h]

theorem countTotal_cons (p : String × List Int) (t : List (String × List Int)) (v : Int) :
    countTotal (p :: t) v = p.2.count v + countTotal t v := by
  simp [countTotal]

theorem countTotal_pair_cons (a : String) (b : List Int) (t : List (String × List Int))
    (v : Int) : countTotal ((a, b) :: t) v = b.count v + countTotal t v := by
  simp [countTotal]

theorem removeAll_cons (p : String × List Int) (t : List (String × List Int)) (id : Int) :
    RemoveFromAllOrders (p :: t) id =
      (p.1, p.2.filter (fun x => x ≠ id)) :: RemoveFromAllOrders t id := rfl

theorem countTotal_remove (orders : List (String × List Int)) (id v : Int) :
    countTotal (RemoveFromAllOrders orders id) v =
      if v = id then 0 else countTotal orders v := by
  induction orders with
  | nil => simp [countTotal, RemoveFromAllOrders]
  | cons p t ih =>
      rw [removeAll_cons, countTotal_pair_cons, countTotal_cons, count_filter_ne, ih]
      split <;> simp

theorem ordersSet_cons (p : String × List Int) (t : List (String × List Int))
    (loc : String) (l : List Int) :
    ordersSet (p :: t) loc l =
      if p.1 == loc then (loc, l) :: t else p :: ordersSet t loc l := rfl

theorem ordersGet_remove (orders : List (String × List Int)) (id : Int) (loc : String) :
    ordersGet (RemoveFromAllOrders orders id) loc =
      (ordersGet orders loc).filter (fun x => x ≠ id) := by
  induction orders with
  | nil => simp [ordersGet, RemoveFromAllOrders]
  | cons p t ih =>
      rw [removeAll_cons, ordersGet_cons, ordersGet_cons]
      by_cases h : p.1 == loc
      · rw [if_pos h, if_pos h]
      · rw [if_neg (by simp_all), if_neg (by simp_all)]
        exact ih

theorem ordersGet_set (orders : List (String × List Int)) (loc : String) (l : List Int) :
    ordersGet (ordersSet orders loc l) loc = l := by
  induction orders with
  | nil => simp [ordersGet, ordersSet, List.find?_cons]
  | cons p t ih =>
      rw [ordersSet_cons]
      by_cases h : p.1 == loc
      · simp [h, ordersGet_cons]
      · rw [if_neg (by simp_all), ordersGet_cons, if_neg (by simp_all)]
        exact ih

theorem countTotal_set (orders : List (String × List Int)) (loc : String)
    (l : List Int) (v : Int) :
    countTotal (ordersSet orders loc l) v + (ordersGet orders loc).count v =
      countTotal orders v + l.count v := by
  induction orders with
  | nil => simp [countTotal, ordersSet, ordersGet]
  | cons p t ih =>
      rw [ordersSet_cons]
      by_cases h : p.1 == loc
      · rw [if_pos h, countTotal_pair_cons, countTotal_cons, ordersGet_cons, if_pos h]
        omega
      · rw [if_neg (by simp_all), countTotal_cons, countTotal_cons, ordersGet_cons,
          if_neg (by simp_all)]
        omega

theorem count_take_drop (l : List Int) (k : Nat) (v : Int) :
    (l.take k).count v + (l.drop k).count v = l.count v := by
  conv_rhs => rw [← List.take_append_drop k l]
  rw [List.count_append]

theorem count_InsertAt (l : List Int) (i : Int) (id v : Int) :
    (InsertAt l i id).count v = l.count v + if v = id then 1 else 0 := by
  unfold InsertAt
  rw [List.count_append, List.count_cons]
  have h := count_take_drop l (clampIdx l.length i) v
  by_cases hv : v = id
  · subst hv
    simp
    omega
  · simp [hv, Ne.symm hv]
    omega

/-- C8: `InsertAt(list, i, id)` always yields a list of length `len(list)+1`
containing `id`, for every integer `i`, including negative `i` and `i` beyond
the length. -/
theorem InsertAt_length_and_mem (s : List Int) (i : Int) (id : Int) :
    (InsertAt s i id).length = s.length + 1 ∧ id ∈ InsertAt s i id := by
  have hcl : clampIdx s.length i ≤ s.length := by
    unfold clampIdx
    split_ifs <;> omega
  constructor
  · unfold InsertAt
    simp only [List.length_append, List.length_take, List.length_cons, List.length_drop]
    omega
  · unfold InsertAt
    simp

theorem ordersGet_count_le (orders : List (String × List Int)) (loc : String) (v : Int) :
    (ordersGet orders loc).count v ≤ countTotal orders v := by
  induction orders with
  | nil => simp [ordersGet, countTotal]
  | cons p t ih =>
      rw [ordersGet_cons, countTotal_cons]
      by_cases hp : p.1 == loc <;> simp [hp] <;> omega

/-- C6: placing a spool into a duplicate-free order list yields an order list
where the spool occurs exactly once — in the destination's list — and every
other spool ID still occurs at most once overall. -/
theorem placeSpool_unique (orders : List (String × List Int)) (d : DestSpec) (id : Int)
    (huniq : ∀ v : Int, countTotal orders v ≤ 1) :
    countTotal (placeSpool orders d id) id = 1 ∧
      id ∈ ordersGet (placeSpool orders d id) d.location ∧
      ∀ v : Int, v ≠ id → countTotal (placeSpool orders d id) v ≤ 1 := by
  have hrem0 : countTotal (RemoveFromAllOrders orders id) id = 0 := by
    rw [countTotal_remove]; simp
  have hget0 : (ordersGet (RemoveFromAllOrders orders id) d.location).count id = 0 := by
    rw [ordersGet_remove, count_filter_ne]; simp
  have hplace : ∀ (l : List Int) (v : Int),
      (placeIntoList l d id).count v = l.count v + if v = id then 1 else 0 := by
    intro l v
    unfold placeIntoList
    split
    · rw [count_InsertAt]
    · rw [List.count_append, List.count_cons, List.count_nil]
      by_cases hv : v = id
      · subst hv
        simp
      · simp [hv, Ne.symm hv]
  refine ⟨?_, ?_, ?_⟩
  · have h := countTotal_set (RemoveFromAllOrders orders id) d.location
      (placeIntoList (ordersGet (RemoveFromAllOrders orders id) d.location) d id) id
    rw [hplace, hget0, hrem0, if_pos rfl] at h
    unfold placeSpool
    omega
  · unfold placeSpool
    rw [ordersGet_set]
    have hcnt : (placeIntoList
        (ordersGet (RemoveFromAllOrders orders id) d.location) d id).count id = 1 := by
      rw [hplace, hget0]; simp
    have hpos : 0 < (placeIntoList
        (ordersGet (RemoveFromAllOrders orders id) d.location) d id).count id := by
      rw [hcnt]
      exact Nat.one_pos
    exact List.count_pos_iff.mp hpos
  · intro v hv
    have h := countTotal_set (RemoveFromAllOrders orders id) d.location
      (placeIntoList (ordersGet (RemoveFromAllOrders orders id) d.location) d id) v
    rw [hplace] at h
    simp only [hv, if_false] at h
    have hrem : countTotal (RemoveFromAllOrders orders id) v = countTotal orders v := by
      rw [countTotal_remove]; simp [hv]
    have hgr := ordersGet_count_le (RemoveFromAllOrders orders id) d.location v
    unfold placeSpool
    have huv := huniq v
    omega

/-- C6 witness. -/
theorem placeSpool_unique_check :
    countTotal (placeSpool [("B", [7])] ⟨"A", 1, true⟩ 20) 20 = 1 ∧
      20 ∈ ordersGet (placeSpool [("B", [7])] ⟨"A", 1, true⟩ 20) "A" ∧
      ∀ v : Int, v ≠ 20 → countTotal (placeSpool [("B", [7])] ⟨"A", 1, true⟩ 20) v ≤ 1 := by
  refine placeSpool_unique [("B", [7])] ⟨"A", 1, true⟩ 20 ?_
  intro v
  have hc : countTotal [("B", [(7 : Int)])] v = ([(7 : Int)]).count v := by
    simp [countTotal]
  rw [hc]
  refine le_trans (List.count_le_length v [(7 : Int)]) ?_
  simp

/-- C9: `ParseDestSpec` is total over strings — it never returns an error —
and when the text after the last separator fails to parse as an integer it
returns the whole (trimmed) token, passed through alias lookup, as the
location with no position. -/
theorem ParseDestSpec_total (aliases : List (String × String)) (input : String) :
    (ParseDestSpec aliases input).isOk = true ∧
      (∀ idx : Nat,
        (trimSpace input == "") = false →
        eqFold (trimSpace input) "<empty>" = false →
        lastSepIdx (trimSpace input).data = some idx →
        ¬(idx = 0 ∨ idx = (trimSpace input).data.length - 1) →
        goAtoi (trimSpace (String.mk ((trimSpace input).data.drop (idx + 1)))) = none →
        ParseDestSpec aliases input =
          .ok ⟨MapToAlias aliases (trimSpace input), 0, false⟩) := by
  constructor
  · unfold ParseDestSpec parseDestTok
    repeat' split
    all_goals rfl
  · intro idx h1 h2 h3 h4 h5
    unfold ParseDestSpec parseDestTok
    rw [h3]
    simp only [h1, h2, h5, Bool.false_eq_true, if_false, h4]

/-- C9 witness: the malformed position text `"x"` silently falls back. -/
theorem ParseDestSpec_total_check :
    (ParseDestSpec [] "A:x").isOk = true ∧
      ParseDestSpec [] "A:x" = .ok ⟨"A:x", 0, false⟩ := by
  have h := ParseDestSpec_total [] "A:x"
  refine ⟨h.1, ?_⟩
  have h2 := h.2 1 (by decide) (by decide) (by decide) (by decide) (by decide)
  have h3 : MapToAlias [] (trimSpace "A:x") = "A:x" := by decide
  rw [h3] at h2
  exact h2

theorem InsertAt_front (l : List Int) (id : Int) : InsertAt l 0 id = id :: l := by
  unfold InsertAt clampIdx
  rw [if_neg (by omega), if_neg (by omega)]
  simp

theorem findIdx?_prefix_false (p : Char → Bool) (l1 l2 : List Char) (a : Char)
    (h1 : ∀ c ∈ l1, p c = false) (ha : p a = true) :
    ∀ i : Nat, (l1 ++ a :: l2).findIdx? p i = some (i + l1.length) := by
  induction l1 with
  | nil =>
      intro i
      simp [List.findIdx?_cons, ha]
  | cons c t ih =>
      intro i
      have hc : p c = false := h1 c (by simp)
      rw [List.cons_append, List.findIdx?_cons, if_neg (by simp [hc])]
      rw [ih (fun x hx => h1 x (by simp [hx])) (i + 1)]
      simp
      omega

theorem dropWhile_false_head (p : Char → Bool) (l : List Char)
    (h : ∀ c, l.head? = some c → p c = false) : l.dropWhile p = l := by
  cases l with
  | nil => rfl
  | cons c t =>
      rw [List.dropWhile_cons, if_neg (by simp [h c rfl])]

theorem trimSpace_eq_self (s : String)
    (h1 : ∀ c, s.data.head? = some c → goIsSpace c = false)
    (h2 : ∀ c, s.data.getLast? = some c → goIsSpace c = false) :
    trimSpace s = s := by
  unfold trimSpace
  rw [dropWhile_false_head goIsSpace s.data h1]
  rw [dropWhile_false_head goIsSpace s.data.reverse (by
    intro c hc
    rw [List.head?_reverse] at hc
    exact h2 c hc)]
  rw [List.reverse_reverse]

/-- C10: a destination token `LOC:N` or `LOC@N` with integer `N ≤ 0` parses
successfully with `hasPos = true` and `pos = N` (positivity is not enforced at
parse time), and the placement path clamps such a position to `1`, inserting
the spool at the front of the destination list. -/
theorem ParseDestSpec_nonpositive_pos (aliases : List (String × String))
    (loc post : String) (sep : Char) (n : Int) (list : List Int) (id : Int)
    (hsepc : sep = ':' ∨ sep = '@')
    (hn : n ≤ 0)
    (hloc : loc.data ≠ [])
    (hlochead : ∀ c, loc.data.head? = some c → goIsSpace c = false)
    (hpostsep : ∀ c ∈ post.data, c ≠ ':' ∧ c ≠ '@')
    (hpostspace : ∀ c ∈ post.data, goIsSpace c = false)
    (hatoi : goAtoi post = some n) :
    (∃ L : String,
      ParseDestSpec aliases (loc ++ String.mk [sep] ++ post) = .ok ⟨L, n, true⟩) ∧
      (∀ L : String, placeIntoList list ⟨L, n, true⟩ id = id :: list) := by
  have hplace : ∀ L : String, placeIntoList list ⟨L, n, true⟩ id = id :: list := by
    intro L
    unfold placeIntoList
    dsimp only
    rw [if_pos rfl]
    have hcp : clampPos list.length n = 1 := by
      unfold clampPos
      rw [if_pos (by omega)]
    rw [hcp, show (1 : Int) - 1 = 0 by norm_num, InsertAt_front]
  refine ⟨?_, hplace⟩
  have hpost_ne : post.data ≠ [] := by
    intro hemp
    unfold goAtoi at hatoi
    rw [hemp] at hatoi
    simp at hatoi
  have hmid : (String.mk [sep]).data = [sep] := rfl
  have hdata : (loc ++ String.mk [sep] ++ post).data = loc.data ++ sep :: post.data := by
    rw [String.data_append, String.data_append, hmid]
    simp
  have hlochead2 : ∀ c, (loc.data ++ sep :: post.data).head? = some c →
      goIsSpace c = false := by
    intro c hc
    cases hl : loc.data with
    | nil => exact absurd hl hloc
    | cons a t =>
        rw [hl] at hc
        simp at hc
        rw [← hc]
        exact hlochead a (by rw [hl]; rfl)
  have hpostlast : ∀ c, (loc.data ++ sep :: post.data).getLast? = some c →
      goIsSpace c = false := by
    intro c hc
    have hg : (loc.data ++ sep :: post.data).getLast? = post.data.getLast? := by
      rw [← List.head?_reverse, List.reverse_append]
      rw [show (sep :: post.data).reverse = post.data.reverse ++ [sep] by simp,
        List.append_assoc]
      cases hp : post.data.reverse with
      | nil =>
          exact absurd (by rw [← List.reverse_reverse post.data, hp]; rfl) hpost_ne
      | cons a t =>
          rw [List.cons_append]
          rw [← List.head?_reverse post.data, hp]
          rfl
    rw [hg] at hc
    exact hpostspace c (List.mem_of_mem_getLast? hc)
  have htrim : trimSpace (loc ++ String.mk [sep] ++ post) = loc ++ String.mk [sep] ++ post := by
    refine trimSpace_eq_self _ ?_ ?_
    · rw [hdata]; exact hlochead2
    · rw [hdata]; exact hpostlast
  have hsep : lastSepIdx (loc ++ String.mk [sep] ++ post).data = some loc.data.length := by
    unfold lastSepIdx
    rw [hdata, List.reverse_append]
    have hform : (sep :: post.data).reverse ++ loc.data.reverse =
        post.data.reverse ++ sep :: loc.data.reverse := by
      simp
    rw [hform]
    rw [findIdx?_prefix_false (fun c => decide (c = ':' ∨ c = '@')) post.data.reverse
      loc.data.reverse sep
      (by
        intro c hc
        have hm := List.mem_reverse.mp hc
        have h2 := hpostsep c hm
        simp [h2.1, h2.2])
      (by rcases hsepc with h | h <;> subst h <;> decide) 0]
    simp [List.length_append]
  have hlen : loc.data.length ≠ 0 := by
    cases hl : loc.data with
    | nil => exact absurd hl hloc
    | cons a t => simp
  have hlast : loc.data.length ≠ (loc ++ String.mk [sep] ++ post).data.length - 1 := by
    rw [hdata]
    simp only [List.length_append, List.length_cons]
    have : post.data.length ≠ 0 := by
      cases hp : post.data with
      | nil => exact absurd hp hpost_ne
      | cons a t => simp
    omega
  have hdrop : (loc ++ String.mk [sep] ++ post).data.drop (loc.data.length + 1) =
      post.data := by
    rw [hdata]
    have h1 : loc.data ++ sep :: post.data = (loc.data ++ [sep]) ++ post.data := by simp
    rw [h1]
    have hl : loc.data.length + 1 = (loc.data ++ [sep]).length := by simp
    rw [hl, List.drop_left]
  have htrimpost : trimSpace post = post := by
    refine trimSpace_eq_self _ ?_ ?_
    · exact fun c hc => hpostspace c (List.mem_of_mem_head? hc)
    · exact fun c hc => hpostspace c (List.mem_of_mem_getLast? hc)
  have hne : ((loc ++ String.mk [sep] ++ post) == "") = false := by
    simp only [beq_eq_false_iff_ne, ne_eq]
    intro hh
    have hd : (loc ++ String.mk [sep] ++ post).data = [] := by rw [hh]
    rw [hdata] at hd
    simp at hd
  have hnemp : eqFold (loc ++ String.mk [sep] ++ post) "<empty>" = false := by
    unfold eqFold
    simp only [beq_eq_false_iff_ne, ne_eq]
    intro hh
    have hmem : lowerAscii sep ∈ (loc ++ String.mk [sep] ++ post).data.map lowerAscii := by
      refine List.mem_map_of_mem lowerAscii ?_
      rw [hdata]
      simp
    rw [hh] at hmem
    rcases hsepc with h | h <;> subst h <;> revert hmem <;> decide
  unfold ParseDestSpec
  rw [htrim]
  unfold parseDestTok
  rw [hsep]
  simp only [hne, hnemp, Bool.false_eq_true, if_false]
  rw [if_neg (by push_neg; exact ⟨hlen, hlast⟩)]
  rw [hdrop]
  have hmkpost : String.mk post.data = post := rfl
  rw [hmkpost, htrimpost, hatoi]
  exact ⟨_, rfl⟩

/-- C10 witness: both separator forms, `A:-2` and `B@0`. -/
theorem ParseDestSpec_nonpositive_pos_check :
    ((∃ L : String, ParseDestSpec [] ("A" ++ String.mk [':'] ++ "-2") = .ok ⟨L, -2, true⟩) ∧
      (∀ L : String, placeIntoList [5, 6] ⟨L, -2, true⟩ 9 = 9 :: [5, 6])) ∧
    ((∃ L : String, ParseDestSpec [] ("B" ++ String.mk ['@'] ++ "0") = .ok ⟨L, 0, true⟩) ∧
      (∀ L : String, placeIntoList [7] ⟨L, 0, true⟩ 4 = 4 :: [7])) :=
  ⟨ParseDestSpec_nonpositive_pos [] "A" "-2" ':' (-2) [5, 6] 9 (by decide) (by decide)
      (by decide) (by decide) (by decide) (by decide) (by decide),
    ParseDestSpec_nonpositive_pos [] "B" "0" '@' 0 [7] 4 (by decide) (by decide)
      (by decide) (by decide) (by decide) (by decide) (by decide)⟩

theorem spoolPriorityLt_trans (printerLocs : List String) (a b c : Spool)
    (h1 : spoolPriorityLt printerLocs a b) (h2 : spoolPriorityLt printerLocs b c) :
    spoolPriorityLt printerLocs a c := by
  unfold spoolPriorityLt at *
  omega

theorem spoolPriorityLt_asymm (printerLocs : List String) (a b : Spool)
    (h1 : spoolPriorityLt printerLocs a b) (h2 : spoolPriorityLt printerLocs b a) :
    False := by
  unfold spoolPriorityLt at *
  omega

theorem spoolPriorityLt_total (printerLocs : List String) (a b : Spool)
    (h : a.id ≠ b.id) :
    spoolPriorityLt printerLocs a b ∨ spoolPriorityLt printerLocs b a := by
  unfold spoolPriorityLt
  omega

theorem betterSpool_iff (printerLocs : List String) (b s : Spool)
    (hb : 0 ≤ b.usedWeight) (hs : 0 ≤ s.usedWeight) :
    betterSpool printerLocs b s = true ↔ spoolPriorityLt printerLocs s b := by
  have hb0 : (b.usedWeight = 0) ↔ ¬(0 < b.usedWeight) := by
    constructor
    · intro h
      simp [h]
    · intro h
      exact le_antisymm (not_lt.mp h) hb
  unfold betterSpool spoolPriorityLt spoolKeyP spoolKeyU
  by_cases hpb : spoolInPrinter printerLocs b <;>
    by_cases hps : spoolInPrinter printerLocs s <;>
    by_cases hub : (0 : ℚ) < b.usedWeight <;>
    by_cases hus : (0 : ℚ) < s.usedWeight <;>
    simp [hpb, hps, hub, hus, hb0]

theorem bestFold_go (printerLocs : List String) (l : List Spool) :
    ∀ b : Spool,
      (∀ s ∈ b :: l, 0 ≤ s.usedWeight) →
      (b :: l).Pairwise (fun a c => a.id ≠ c.id) →
      ∃ m, l.foldl (bestStep printerLocs) (some b) = some m ∧ m ∈ b :: l ∧
        ∀ x ∈ b :: l, x ≠ m → spoolPriorityLt printerLocs m x := by
  induction l with
  | nil =>
      intro b _ _
      refine ⟨b, rfl, by simp, ?_⟩
      intro x hx hne
      simp at hx
      exact absurd hx hne
  | cons s t ih =>
      intro b hw hid
      have hws : 0 ≤ s.usedWeight := hw s (by simp)
      have hwb : 0 ≤ b.usedWeight := hw b (by simp)
      have hbs_id : b.id ≠ s.id := (List.pairwise_cons.mp hid).1 s (by simp)
      have hstep : (s :: t).foldl (bestStep printerLocs) (some b) =
          t.foldl (bestStep printerLocs)
            (if betterSpool printerLocs b s then some s else some b) := rfl
      by_cases hbet : betterSpool printerLocs b s
      · -- the new element replaces the current best; `b` is discarded
        have hlt : spoolPriorityLt printerLocs s b :=
          (betterSpool_iff printerLocs b s hwb hws).mp hbet
        have hw2 : ∀ x ∈ s :: t, 0 ≤ x.usedWeight := by
          intro x hx
          refine hw x ?_
          simp at hx ⊢
          tauto
        have hid2 : (s :: t).Pairwise (fun a c => a.id ≠ c.id) :=
          (List.pairwise_cons.mp hid).2
        obtain ⟨m, hm1, hm2, hm3⟩ := ih s hw2 hid2
        refine ⟨m, by rw [hstep, if_pos hbet]; exact hm1, ?_, ?_⟩
        · simp at hm2 ⊢
          tauto
        · intro x hx hne
          rcases List.mem_cons.mp hx with hxb | hxst
          · subst hxb
            by_cases hms : m = s
            · subst hms
              exact hlt
            · exact spoolPriorityLt_trans printerLocs m s x
                (hm3 s (by simp) (fun hh => hms hh.symm)) hlt
          · exact hm3 x hxst hne
      · -- the current best is kept; `s` is discarded
        have hnlt : ¬spoolPriorityLt printerLocs s b := fun hc =>
          hbet ((betterSpool_iff printerLocs b s hwb hws).mpr hc)
        have hbs : spoolPriorityLt printerLocs b s := by
          rcases spoolPriorityLt_total printerLocs s b hbs_id.symm with h | h
          · exact absurd h hnlt
          · exact h
        have hw2 : ∀ x ∈ b :: t, 0 ≤ x.usedWeight := by
          intro x hx
          refine hw x ?_
          simp at hx ⊢
          tauto
        have hid2 : (b :: t).Pairwise (fun a c => a.id ≠ c.id) := by
          rcases List.pairwise_cons.mp hid with ⟨hb1, hrest⟩
          rcases List.pairwise_cons.mp hrest with ⟨_, ht⟩
          refine List.pairwise_cons.mpr ⟨?_, ht⟩
          intro x hx
          exact hb1 x (by simp [hx])
        obtain ⟨m, hm1, hm2, hm3⟩ := ih b hw2 hid2
        refine ⟨m, by rw [hstep, if_neg hbet]; exact hm1, ?_, ?_⟩
        · simp at hm2 ⊢
          tauto
        · intro x hx hne
          rcases List.mem_cons.mp hx with hxb | hxst
          · subst hxb
            exact hm3 x (by simp) hne
          · rcases List.mem_cons.mp hxst with hxs | hxt
            · subst hxs
              by_cases hmb : m = b
              · subst hmb
                exact hbs
              · exact spoolPriorityLt_trans printerLocs m b x
                  (hm3 b (by simp) (fun hh => hmb hh.symm)) hbs
            · exact hm3 x (by simp [hxt]) hne

theorem bestSelect_spec (printerLocs : List String) (cands : List Spool)
    (hw : ∀ s ∈ cands, 0 ≤ s.usedWeight)
    (hid : cands.Pairwise (fun a b => a.id ≠ b.id))
    (hne : cands ≠ []) :
    ∃ m, cands.foldl (bestStep printerLocs) none = some m ∧ m ∈ cands ∧
      ∀ x ∈ cands, x ≠ m → spoolPriorityLt printerLocs m x := by
  cases cands with
  | nil => exact absurd rfl hne
  | cons b rest => exact bestFold_go printerLocs rest b hw hid

/-- C7: for a fixed candidate set (non-archived spools of the requirement's
filament, pairwise-distinct IDs, nonnegative used weights), best-spool
selection returns the same spool under every enumeration order — the unique
spool minimal under the priority (not in any printer's slot, then nonzero
used weight, then lowest ID). -/
theorem bestSpool_order_independent (printerLocs : List String)
    (l l' : List Spool) (filId : Int)
    (hw : ∀ s ∈ l, 0 ≤ s.usedWeight)
    (hid : (candidatesOf l filId).Pairwise (fun a b => a.id ≠ b.id))
    (hperm : l.Perm l') :
    bestSpoolSelect printerLocs l filId = bestSpoolSelect printerLocs l' filId ∧
      ∀ m, bestSpoolSelect printerLocs l filId = some m →
        m ∈ candidatesOf l filId ∧
          ∀ x ∈ candidatesOf l filId, x ≠ m → spoolPriorityLt printerLocs m x := by
  have hpc : (candidatesOf l filId).Perm (candidatesOf l' filId) :=
    hperm.filter _
  by_cases hnil : candidatesOf l filId = []
  · have hnil' : candidatesOf l' filId = [] := by
      have hh := hpc.symm
      rw [hnil] at hh
      exact List.Perm.eq_nil hh
    constructor
    · unfold bestSpoolSelect
      rw [hnil, hnil']
    · intro m hm
      unfold bestSpoolSelect at hm
      rw [hnil] at hm
      simp at hm
  · have hw1 : ∀ s ∈ candidatesOf l filId, 0 ≤ s.usedWeight := by
      intro s hs
      exact hw s (List.mem_of_mem_filter hs)
    have hw2 : ∀ s ∈ candidatesOf l' filId, 0 ≤ s.usedWeight := by
      intro s hs
      exact hw s (hperm.symm.subset (List.mem_of_mem_filter hs))
    have hid2 : (candidatesOf l' filId).Pairwise (fun a b => a.id ≠ b.id) :=
      (List.Perm.pairwise_iff (fun hxy => Ne.symm hxy) hpc).mp hid
    have hnil2 : candidatesOf l' filId ≠ [] := by
      intro hh
      rw [hh] at hpc
      exact hnil (List.Perm.eq_nil hpc)
    obtain ⟨m1, hf1, hmem1, hmin1⟩ :=
      bestSelect_spec printerLocs (candidatesOf l filId) hw1 hid hnil
    obtain ⟨m2, hf2, hmem2, hmin2⟩ :=
      bestSelect_spec printerLocs (candidatesOf l' filId) hw2 hid2 hnil2
    have heq : m1 = m2 := by
      by_contra hne12
      have h12 : spoolPriorityLt printerLocs m1 m2 :=
        hmin1 m2 (hpc.symm.subset hmem2) (fun hh => hne12 hh.symm)
      have h21 : spoolPriorityLt printerLocs m2 m1 :=
        hmin2 m1 (hpc.subset hmem1) (fun hh => hne12 hh)
      exact spoolPriorityLt_asymm printerLocs m1 m2 h12 h21
    constructor
    · unfold bestSpoolSelect
      rw [hf1, hf2, heq]
    · intro m hm
      unfold bestSpoolSelect at hm
      rw [hf1] at hm
      injection hm with hm
      subst hm
      exact ⟨hmem1, hmin1⟩

/-- C7 witness: two candidates, both enumeration orders. -/
theorem bestSpool_order_independent_check :
    (bestSpoolSelect ["P1"]
        [⟨4, 7, 100, 5, "Shelf", none, false⟩, ⟨2, 7, 300, 0, "P1", none, false⟩] 7 =
      bestSpoolSelect ["P1"]
        [⟨2, 7, 300, 0, "P1", none, false⟩, ⟨4, 7, 100, 5, "Shelf", none, false⟩] 7) ∧
      ∀ m, bestSpoolSelect ["P1"]
          [⟨4, 7, 100, 5, "Shelf", none, false⟩, ⟨2, 7, 300, 0, "P1", none, false⟩] 7 =
          some m →
        m ∈ candidatesOf
            [⟨4, 7, 100, 5, "Shelf", none, false⟩, ⟨2, 7, 300, 0, "P1", none, false⟩] 7 ∧
          ∀ x ∈ candidatesOf
              [⟨4, 7, 100, 5, "Shelf", none, false⟩,
                ⟨2, 7, 300, 0, "P1", none, false⟩] 7,
            x ≠ m → spoolPriorityLt ["P1"] m x :=
  bestSpool_order_independent ["P1"]
    [⟨4, 7, 100, 5, "Shelf", none, false⟩, ⟨2, 7, 300, 0, "P1", none, false⟩]
    [⟨2, 7, 300, 0, "P1", none, false⟩, ⟨4, 7, 100, 5, "Shelf", none, false⟩] 7
    (by decide) (by decide) (by decide)

theorem nextBest_go (filId loadedId : Int) (l : List Spool) :
    ∀ (acc : Option Spool) (m : Spool),
      l.foldl (nextBestStep filId loadedId) acc = some m →
      (acc = some m ∨
        (m ∈ l ∧ m.archived = false ∧ m.filamentId = filId ∧ m.id ≠ loadedId)) ∧
      (∀ b, acc = some b → b.remainingWeight ≤ m.remainingWeight) ∧
      (∀ s ∈ l, s.archived = false → s.filamentId = filId → s.id ≠ loadedId →
        s.remainingWeight ≤ m.remainingWeight) := by
  induction l with
  | nil =>
      intro acc m h
      simp only [List.foldl_nil] at h
      refine ⟨Or.inl h, ?_, by simp⟩
      intro b hb
      rw [hb] at h
      injection h with h
      rw [h]
  | cons s t ih =>
      intro acc m h
      rw [List.foldl_cons] at h
      by_cases hcand : (!s.archived && s.filamentId == filId && !(s.id == loadedId)) = true
      · have hcand' : s.archived = false ∧ s.filamentId = filId ∧ s.id ≠ loadedId := by
          simp at hcand
          tauto
        cases acc with
        | none =>
            have hstep : nextBestStep filId loadedId none s = some s := by
              unfold nextBestStep
              rw [if_pos hcand]
            rw [hstep] at h
            obtain ⟨h1, h2, h3⟩ := ih (some s) m h
            have hsm : s.remainingWeight ≤ m.remainingWeight := h2 s rfl
            refine ⟨?_, by simp, ?_⟩
            · rcases h1 with h1 | h1
              · injection h1 with h1
                refine Or.inr ⟨by simp [h1], ?_⟩
                rw [← h1]
                exact hcand'
              · exact Or.inr ⟨by simp [h1.1], h1.2⟩
            · intro x hx hxa hxf hxi
              rcases List.mem_cons.mp hx with hxs | hxt
              · rw [hxs]
                exact hsm
              · exact h3 x hxt hxa hxf hxi
        | some b =>
            have hstep : nextBestStep filId loadedId (some b) s =
                if b.remainingWeight < s.remainingWeight then some s else some b := by
              unfold nextBestStep
              rw [if_pos hcand]
            rw [hstep] at h
            by_cases hlt : b.remainingWeight < s.remainingWeight
            · rw [if_pos hlt] at h
              obtain ⟨h1, h2, h3⟩ := ih (some s) m h
              have hsm : s.remainingWeight ≤ m.remainingWeight := h2 s rfl
              refine ⟨?_, ?_, ?_⟩
              · rcases h1 with h1 | h1
                · injection h1 with h1
                  refine Or.inr ⟨by simp [h1], ?_⟩
                  rw [← h1]
                  exact hcand'
                · exact Or.inr ⟨by simp [h1.1], h1.2⟩
              · intro b0 hb0
                injection hb0 with hb0
                rw [← hb0]
                exact le_trans (le_of_lt hlt) hsm
              · intro x hx hxa hxf hxi
                rcases List.mem_cons.mp hx with hxs | hxt
                · rw [hxs]
                  exact hsm
                · exact h3 x hxt hxa hxf hxi
            · rw [if_neg hlt] at h
              obtain ⟨h1, h2, h3⟩ := ih (some b) m h
              have hbm : b.remainingWeight ≤ m.remainingWeight := h2 b rfl
              refine ⟨?_, ?_, ?_⟩
              · rcases h1 with h1 | h1
                · exact Or.inl h1
                · exact Or.inr ⟨by simp [h1.1], h1.2⟩
              · intro b0 hb0
                injection hb0 with hb0
                rw [← hb0]
                exact hbm
              · intro x hx hxa hxf hxi
                rcases List.mem_cons.mp hx with hxs | hxt
                · rw [hxs]
                  exact le_trans (not_lt.mp hlt) hbm
                · exact h3 x hxt hxa hxf hxi
      · have hstep : nextBestStep filId loadedId acc s = acc := by
          unfold nextBestStep
          rw [if_neg hcand]
        rw [hstep] at h
        obtain ⟨h1, h2, h3⟩ := ih acc m h
        refine ⟨?_, h2, ?_⟩
        · rcases h1 with h1 | h1
          · exact Or.inl h1
          · exact Or.inr ⟨by simp [h1.1], h1.2⟩
        · intro x hx hxa hxf hxi
          rcases List.mem_cons.mp hx with hxs | hxt
          · exfalso
            rw [hxs] at hxa hxf hxi
            refine hcand ?_
            simp [hxa, hxf, hxi]
          · exact h3 x hxt hxa hxf hxi

/-- C4 counterexample: with two spools of the filament loaded in slot `"L"`
(capacity ≥ 2) the substitute search returns spool 2, which is itself in
slot `"L"`, even though spool 3 is the highest-remaining-weight spool not in
that slot — the code only excludes the loaded spool by ID, not by slot. -/
theorem nextBest_picks_spool_in_same_slot :
    nextBestSelect
        [⟨1, 7, 10, 0, "L", none, false⟩, ⟨2, 7, 500, 0, "L", none, false⟩,
          ⟨3, 7, 400, 0, "Shelf", none, false⟩] 7 1 =
      some ⟨2, 7, 500, 0, "L", none, false⟩ ∧
      (⟨2, 7, 500, 0, "L", none, false⟩ : Spool).location = "L" ∧
      (⟨3, 7, 400, 0, "Shelf", none, false⟩ : Spool).location ≠ "L" ∧
      (⟨3, 7, 400, 0, "Shelf", none, false⟩ : Spool).archived = false ∧
      (⟨3, 7, 400, 0, "Shelf", none, false⟩ : Spool).filamentId = 7 := by
  refine ⟨?_, rfl, by decide, rfl, rfl⟩
  decide

/-- C4 (amended): the substitute offered for an under-supplied loaded spool
is a spool with the highest remaining weight among non-archived spools of
the requirement's filament ID **other than the loaded spool itself (by
spool ID)**. -/
theorem nextBest_max_remaining (allSpools : List Spool) (filId loadedId : Int)
    (m : Spool) (hm : nextBestSelect allSpools filId loadedId = some m) :
    (m ∈ allSpools ∧ m.archived = false ∧ m.filamentId = filId ∧ m.id ≠ loadedId) ∧
      ∀ s ∈ allSpools, s.archived = false → s.filamentId = filId →
        s.id ≠ loadedId → s.remainingWeight ≤ m.remainingWeight := by
  obtain ⟨h1, _h2, h3⟩ := nextBest_go filId loadedId allSpools none m hm
  rcases h1 with h1 | h1
  · exact absurd h1 (by simp)
  · exact ⟨h1, h3⟩

/-- C4 witness. -/
theorem nextBest_max_remaining_check :
    ((⟨2, 7, 500, 0, "L", none, false⟩ : Spool) ∈
        [⟨1, 7, 10, 0, "L", none, false⟩, ⟨2, 7, 500, 0, "L", none, false⟩] ∧
        (⟨2, 7, 500, 0, "L", none, false⟩ : Spool).archived = false ∧
        (⟨2, 7, 500, 0, "L", none, false⟩ : Spool).filamentId = 7 ∧
        (⟨2, 7, 500, 0, "L", none, false⟩ : Spool).id ≠ 1) ∧
      ∀ s ∈ [(⟨1, 7, 10, 0, "L", none, false⟩ : Spool),
          ⟨2, 7, 500, 0, "L", none, false⟩],
        s.archived = false → s.filamentId = 7 → s.id ≠ 1 →
          s.remainingWeight ≤ (⟨2, 7, 500, 0, "L", none, false⟩ : Spool).remainingWeight :=
  nextBest_max_remaining
    [⟨1, 7, 10, 0, "L", none, false⟩, ⟨2, 7, 500, 0, "L", none, false⟩] 7 1
    ⟨2, 7, 500, 0, "L", none, false⟩ (by decide)

/-- C2: the needed-set is computed from `discovered[0]` even when the chosen
plate belongs to a different discovered plan. With two discovered plans and
the chosen plate being the only plate of the second plan (requiring filament
2), the code's needed-set is `[1]` — the first plan's filaments — while the
set described by the claim is `[2]`. -/
theorem neededSet_uses_first_plan :
    sessionNeededIDs
        [⟨[⟨"todo", [⟨"todo", [⟨1, 10⟩]⟩]⟩]⟩, ⟨[⟨"todo", [⟨"todo", [⟨2, 10⟩]⟩]⟩]⟩]
        0 0 = [1] ∧
      claimNeededIDs
        [⟨[⟨"todo", [⟨"todo", [⟨1, 10⟩]⟩]⟩]⟩, ⟨[⟨"todo", [⟨"todo", [⟨2, 10⟩]⟩]⟩]⟩]
        1 0 0 = [2] ∧
      (2 : Int) ∉ sessionNeededIDs
        [⟨[⟨"todo", [⟨"todo", [⟨1, 10⟩]⟩]⟩]⟩, ⟨[⟨"todo", [⟨"todo", [⟨2, 10⟩]⟩]⟩]⟩]
        0 0 := by
  refine ⟨rfl, rfl, by decide⟩

theorem lruReplace_iff (cur new : Option Nat) :
    lruReplace cur new = true ↔ lruKey new < lruKey cur := by
  cases cur with
  | none =>
      cases new with
      | none => simp [lruReplace, lruKey]
      | some b => simp [lruReplace, lruKey, WithTop.coe_lt_top]
  | some a =>
      cases new with
      | none => simp [lruReplace, lruKey]
      | some b => simp [lruReplace, lruKey, WithTop.coe_lt_coe]

theorem foldl_flatMap {α β γ : Type} (f : γ → α → γ) (g : β → List α)
    (l : List β) (i : γ) :
    (l.flatMap g).foldl f i = l.foldl (fun st x => (g x).foldl f st) i := by
  induction l generalizing i with
  | nil => rfl
  | cons b t ih =>
      rw [List.flatMap_cons, List.foldl_append, List.foldl_cons, ih]

theorem mem_slotSpools (printerLocs : List String) (loaded : List Spool) (s : Spool) :
    s ∈ slotSpools printerLocs loaded ↔ s ∈ loaded ∧ s.location ∈ printerLocs := by
  unfold slotSpools
  rw [List.mem_flatMap]
  constructor
  · rintro ⟨loc, hloc, hs⟩
    have hm := List.mem_filter.mp hs
    refine ⟨hm.1, ?_⟩
    have : s.location = loc := by
      have := hm.2
      simp at this
      exact this
    rw [this]
    exact hloc
  · rintro ⟨hs, hloc⟩
    exact ⟨s.location, hloc, List.mem_filter.mpr ⟨hs, by simp⟩⟩

theorem unloadLocSelect_eq_foldl (needed : Spool → Bool) (printerLocs : List String)
    (loaded : List Spool) :
    unloadLocSelect needed printerLocs loaded =
      (slotSpools printerLocs loaded).foldl (evictLocSelStep needed)
        ("", zeroSpool, false) := by
  unfold unloadLocSelect slotSpools
  rw [foldl_flatMap]

theorem SelInv_step (needed : Spool → Bool) (seen : List Spool)
    (st : String × Spool × Bool) (s : Spool)
    (hlocseen : ∀ x ∈ seen, x.location ≠ "")
    (h : SelInv needed seen st) :
    SelInv needed (seen ++ [s]) (evictLocSelStep needed st s) := by
  obtain ⟨loc0, cand0, found0⟩ := st
  obtain ⟨h1, h2, h3, h4⟩ := h
  simp only at h1 h2 h3 h4
  by_cases hn : needed s = false
  · by_cases hf : found0 = false
    · -- first non-needed spool seen
      have hstep : evictLocSelStep needed (loc0, cand0, found0) s =
          (s.location, s, true) := by
        unfold evictLocSelStep
        rw [if_pos hn, if_pos hf]
      rw [hstep]
      have hnone : ∀ x ∈ seen, ¬needed x = false := by
        intro x hx hxn
        rw [hf] at h1
        exact absurd (h1.mpr ⟨x, hx, hxn⟩) (by simp)
      refine ⟨iff_of_true rfl ⟨s, by simp, hn⟩, ?_, by simp, by simp⟩
      intro _
      refine ⟨by simp, hn, rfl, ?_⟩
      intro x hx hxn
      rcases List.mem_append.mp hx with hx | hx
      · exact absurd hxn (hnone x hx)
      · have : x = s := by simpa using hx
        rw [this]
        exact lt_irrefl _
    · -- a non-needed candidate already exists
      have hf' : found0 = true := by
        cases found0
        · exact absurd rfl hf
        · rfl
      obtain ⟨hc1, hc2, hc3, hc4⟩ := h2 hf'
      by_cases hr : lruReplace cand0.lastUsed s.lastUsed = true
      · have hstep : evictLocSelStep needed (loc0, cand0, found0) s =
            (s.location, s, true) := by
          unfold evictLocSelStep
          rw [if_pos hn, if_neg (by rw [hf']; simp), if_pos hr]
        rw [hstep]
        have hlt : lruKey s.lastUsed < lruKey cand0.lastUsed :=
          (lruReplace_iff _ _).mp hr
        refine ⟨iff_of_true rfl ⟨s, by simp, hn⟩, ?_, by simp, by simp⟩
        intro _
        refine ⟨by simp, hn, rfl, ?_⟩
        intro x hx hxn
        rcases List.mem_append.mp hx with hx | hx
        · intro hcon
          exact hc4 x hx hxn (lt_trans hcon hlt)
        · have : x = s := by simpa using hx
          rw [this]
          exact lt_irrefl _
      · have hstep : evictLocSelStep needed (loc0, cand0, found0) s =
            (loc0, cand0, found0) := by
          unfold evictLocSelStep
          rw [if_pos hn, if_neg (by rw [hf']; simp), if_neg hr]
        rw [hstep]
        have hnlt : ¬lruKey s.lastUsed < lruKey cand0.lastUsed := by
          intro hcon
          exact hr ((lruReplace_iff _ _).mpr hcon)
        refine ⟨?_, ?_, by simp [hf'], by simp [hf']⟩
        · rw [hf']
          simp only [true_iff]
          exact ⟨cand0, by simp [hc1], hc2⟩
        · intro _
          refine ⟨by simp [hc1], hc2, hc3, ?_⟩
          intro x hx hxn
          rcases List.mem_append.mp hx with hx | hx
          · exact hc4 x hx hxn
          · have : x = s := by simpa using hx
            rw [this]
            exact hnlt
  · -- the new spool is needed
    have hn' : needed s = true := by
      cases hh : needed s
      · exact absurd hh hn
      · rfl
    by_cases hf : found0 = false
    · by_cases hseen : seen = []
      · have hinit := h3 hf hseen
        have hloc0 : loc0 = "" := by
          have := congrArg Prod.fst hinit
          simpa using this
        have hstep : evictLocSelStep needed (loc0, cand0, found0) s =
            (s.location, s, false) := by
          unfold evictLocSelStep
          rw [if_neg (by rw [hn']; simp), if_pos hf, if_pos hloc0]
        rw [hstep]
        subst hseen
        refine ⟨?_, by simp, by simp, ?_⟩
        · refine iff_of_false (by simp) ?_
          rintro ⟨x, hx, hxn⟩
          simp at hx
          rw [hx] at hxn
          rw [hxn] at hn'
          exact absurd hn' (by simp)
        · intro _ _
          refine ⟨by simp, rfl, ?_⟩
          intro x hx
          have : x = s := by simpa using hx
          rw [this]
          exact lt_irrefl _
      · obtain ⟨hc1, hc2, hc3⟩ := h4 hf hseen
        have hloc0 : loc0 ≠ "" := by
          rw [hc2]
          exact hlocseen cand0 hc1
        have hnone : ∀ x ∈ seen, ¬needed x = false := by
          intro x hx hxn
          rw [hf] at h1
          exact absurd (h1.mpr ⟨x, hx, hxn⟩) (by simp)
        by_cases hr : lruReplace cand0.lastUsed s.lastUsed = true
        · have hstep : evictLocSelStep needed (loc0, cand0, found0) s =
              (s.location, s, false) := by
            unfold evictLocSelStep
            rw [if_neg (by rw [hn']; simp), if_pos hf, if_neg hloc0, if_pos hr]
          rw [hstep]
          have hlt : lruKey s.lastUsed < lruKey cand0.lastUsed :=
            (lruReplace_iff _ _).mp hr
          refine ⟨?_, by simp, by simp [hseen], ?_⟩
          · refine iff_of_false (by simp) ?_
            rintro ⟨x, hx, hxn⟩
            rcases List.mem_append.mp hx with hx | hx
            · exact (hnone x hx) hxn
            · have : x = s := by simpa using hx
              rw [this] at hxn
              rw [hxn] at hn'
              exact absurd hn' (by simp)
          · intro _ _
            refine ⟨by simp, rfl, ?_⟩
            intro x hx
            rcases List.mem_append.mp hx with hx | hx
            · intro hcon
              exact hc3 x hx (lt_trans hcon hlt)
            · have : x = s := by simpa using hx
              rw [this]
              exact lt_irrefl _
        · have hstep : evictLocSelStep needed (loc0, cand0, found0) s =
              (loc0, cand0, found0) := by
            unfold evictLocSelStep
            rw [if_neg (by rw [hn']; simp), if_pos hf, if_neg hloc0, if_neg hr]
          rw [hstep]
          have hnlt : ¬lruKey s.lastUsed < lruKey cand0.lastUsed := by
            intro hcon
            exact hr ((lruReplace_iff _ _).mpr hcon)
          refine ⟨?_, ?_, by simp [hseen, hf], ?_⟩
          · rw [hf]
            refine iff_of_false (by simp) ?_
            rintro ⟨x, hx, hxn⟩
            rcases List.mem_append.mp hx with hx | hx
            · exact (hnone x hx) hxn
            · have : x = s := by simpa using hx
              rw [this] at hxn
              rw [hxn] at hn'
              exact absurd hn' (by simp)
          · intro hcon
            rw [hf] at hcon
            exact absurd hcon (by simp)
          · intro _ _
            refine ⟨by simp [hc1], hc2, ?_⟩
            intro x hx
            rcases List.mem_append.mp hx with hx | hx
            · exact hc3 x hx
            · have : x = s := by simpa using hx
              rw [this]
              exact hnlt
    · -- a non-needed candidate exists; a needed spool changes nothing
      have hf' : found0 = true := by
        cases found0
        · exact absurd rfl hf
        · rfl
      have hstep : evictLocSelStep needed (loc0, cand0, found0) s =
          (loc0, cand0, found0) := by
        unfold evictLocSelStep
        rw [if_neg (by rw [hn']; simp), if_neg (by rw [hf']; simp)]
      rw [hstep]
      obtain ⟨hc1, hc2, hc3, hc4⟩ := h2 hf'
      refine ⟨?_, ?_, by simp [hf'], by simp [hf']⟩
      · rw [hf']
        simp only [true_iff]
        exact ⟨cand0, by simp [hc1], hc2⟩
      · intro _
        refine ⟨by simp [hc1], hc2, hc3, ?_⟩
        intro x hx hxn
        rcases List.mem_append.mp hx with hx | hx
        · exact hc4 x hx hxn
        · have : x = s := by simpa using hx
          rw [this] at hxn
          rw [hxn] at hn'
          exact absurd hn' (by simp)

theorem SelInv_fold (needed : Spool → Bool) (l : List Spool) :
    ∀ (seen : List Spool) (st : String × Spool × Bool),
      (∀ x ∈ seen, x.location ≠ "") → (∀ x ∈ l, x.location ≠ "") →
      SelInv needed seen st →
      SelInv needed (seen ++ l) (l.foldl (evictLocSelStep needed) st) := by
  induction l with
  | nil =>
      intro seen st _ _ h
      simpa using h
  | cons s t ih =>
      intro seen st hseen hl h
      rw [List.foldl_cons]
      have hstep := SelInv_step needed seen st s hseen h
      have happ : seen ++ s :: t = (seen ++ [s]) ++ t := by simp
      rw [happ]
      refine ih (seen ++ [s]) (evictLocSelStep needed st s) ?_ ?_ hstep
      · intro x hx
        rcases List.mem_append.mp hx with hx | hx
        · exact hseen x hx
        · have : x = s := by simpa using hx
          rw [this]
          exact hl s (by simp)
      · intro x hx
        exact hl x (by simp [hx])

theorem SelInv_init (needed : Spool → Bool) :
    SelInv needed [] ("", zeroSpool, false) := by
  refine ⟨by simp, by simp, fun _ _ => rfl, by simp⟩

theorem LocInv_step (needed : Spool → Bool) (seen : List Spool)
    (st : Spool × Bool) (s : Spool)
    (hidseen : ∀ x ∈ seen, x.id ≠ 0)
    (h : LocInv needed seen st) :
    LocInv needed (seen ++ [s]) (evictLocStep needed st s) := by
  obtain ⟨cand0, found0⟩ := st
  obtain ⟨h1, h2, h3, h4⟩ := h
  simp only at h1 h2 h3 h4
  by_cases hn : needed s = false
  · by_cases hf : found0 = false
    · have hstep : evictLocStep needed (cand0, found0) s = (s, true) := by
        unfold evictLocStep
        rw [if_pos hn, if_pos hf]
      rw [hstep]
      have hnone : ∀ x ∈ seen, ¬needed x = false := by
        intro x hx hxn
        rw [hf] at h1
        exact absurd (h1.mpr ⟨x, hx, hxn⟩) (by simp)
      refine ⟨iff_of_true rfl ⟨s, by simp, hn⟩, ?_, by simp, by simp⟩
      intro _
      refine ⟨by simp, hn, ?_⟩
      intro x hx hxn
      rcases List.mem_append.mp hx with hx | hx
      · exact absurd hxn (hnone x hx)
      · have : x = s := by simpa using hx
        rw [this]
        exact lt_irrefl _
    · have hf' : found0 = true := by
        cases found0
        · exact absurd rfl hf
        · rfl
      obtain ⟨hc1, hc2, hc3⟩ := h2 hf'
      by_cases hr : lruReplace cand0.lastUsed s.lastUsed = true
      · have hstep : evictLocStep needed (cand0, found0) s = (s, true) := by
          unfold evictLocStep
          rw [if_pos hn, if_neg (by rw [hf']; simp), if_pos hr]
        rw [hstep]
        have hlt : lruKey s.lastUsed < lruKey cand0.lastUsed :=
          (lruReplace_iff _ _).mp hr
        refine ⟨iff_of_true rfl ⟨s, by simp, hn⟩, ?_, by simp, by simp⟩
        intro _
        refine ⟨by simp, hn, ?_⟩
        intro x hx hxn
        rcases List.mem_append.mp hx with hx | hx
        · intro hcon
          exact hc3 x hx hxn (lt_trans hcon hlt)
        · have : x = s := by simpa using hx
          rw [this]
          exact lt_irrefl _
      · have hstep : evictLocStep needed (cand0, found0) s = (cand0, true) := by
          unfold evictLocStep
          rw [if_pos hn, if_neg (by rw [hf']; simp), if_neg hr]
        rw [hstep]
        have hnlt : ¬lruKey s.lastUsed < lruKey cand0.lastUsed := by
          intro hcon
          exact hr ((lruReplace_iff _ _).mpr hcon)
        refine ⟨iff_of_true rfl ⟨cand0, by simp [hc1], hc2⟩, ?_, by simp, by simp⟩
        intro _
        refine ⟨by simp [hc1], hc2, ?_⟩
        intro x hx hxn
        rcases List.mem_append.mp hx with hx | hx
        · exact hc3 x hx hxn
        · have : x = s := by simpa using hx
          rw [this]
          exact hnlt
  · have hn' : needed s = true := by
      cases hh : needed s
      · exact absurd hh hn
      · rfl
    by_cases hf : found0 = false
    · by_cases hseen : seen = []
      · have hinit := h3 hf hseen
        have hcand0 : cand0.id = 0 := by
          have := congrArg (fun p => (Prod.fst p).id) hinit
          simpa [zeroSpool] using this
        have hstep : evictLocStep needed (cand0, found0) s = (s, false) := by
          unfold evictLocStep
          rw [if_neg (by rw [hn']; simp), if_pos hf, if_pos hcand0]
        rw [hstep]
        subst hseen
        refine ⟨?_, by simp, by simp, ?_⟩
        · refine iff_of_false (by simp) ?_
          rintro ⟨x, hx, hxn⟩
          simp at hx
          rw [hx] at hxn
          rw [hxn] at hn'
          exact absurd hn' (by simp)
        · intro _ _
          refine ⟨by simp, ?_⟩
          intro x hx
          have : x = s := by simpa using hx
          rw [this]
          exact lt_irrefl _
      · obtain ⟨hc1, hc2⟩ := h4 hf hseen
        have hcand0 : cand0.id ≠ 0 := hidseen cand0 hc1
        have hnone : ∀ x ∈ seen, ¬needed x = false := by
          intro x hx hxn
          rw [hf] at h1
          exact absurd (h1.mpr ⟨x, hx, hxn⟩) (by simp)
        by_cases hr : lruReplace cand0.lastUsed s.lastUsed = true
        · have hstep : evictLocStep needed (cand0, found0) s = (s, false) := by
            unfold evictLocStep
            rw [if_neg (by rw [hn']; simp), if_pos hf, if_neg hcand0, if_pos hr]
          rw [hstep]
          have hlt : lruKey s.lastUsed < lruKey cand0.lastUsed :=
            (lruReplace_iff _ _).mp hr
          refine ⟨?_, by simp, by simp [hseen], ?_⟩
          · refine iff_of_false (by simp) ?_
            rintro ⟨x, hx, hxn⟩
            rcases List.mem_append.mp hx with hx | hx
            · exact (hnone x hx) hxn
            · have : x = s := by simpa using hx
              rw [this] at hxn
              rw [hxn] at hn'
              exact absurd hn' (by simp)
          · intro _ _
            refine ⟨by simp, ?_⟩
            intro x hx
            rcases List.mem_append.mp hx with hx | hx
            · intro hcon
              exact hc2 x hx (lt_trans hcon hlt)
            · have : x = s := by simpa using hx
              rw [this]
              exact lt_irrefl _
        · have hstep : evictLocStep needed (cand0, found0) s = (cand0, false) := by
            unfold evictLocStep
            rw [if_neg (by rw [hn']; simp), if_pos hf, if_neg hcand0, if_neg hr]
          rw [hstep]
          have hnlt : ¬lruKey s.lastUsed < lruKey cand0.lastUsed := by
            intro hcon
            exact hr ((lruReplace_iff _ _).mpr hcon)
          refine ⟨?_, by simp, by simp [hseen], ?_⟩
          · refine iff_of_false (by simp) ?_
            rintro ⟨x, hx, hxn⟩
            rcases List.mem_append.mp hx with hx | hx
            · exact (hnone x hx) hxn
            · have : x = s := by simpa using hx
              rw [this] at hxn
              rw [hxn] at hn'
              exact absurd hn' (by simp)
          · intro _ _
            refine ⟨by simp [hc1], ?_⟩
            intro x hx
            rcases List.mem_append.mp hx with hx | hx
            · exact hc2 x hx
            · have : x = s := by simpa using hx
              rw [this]
              exact hnlt
    · have hf' : found0 = true := by
        cases found0
        · exact absurd rfl hf
        · rfl
      have hstep : evictLocStep needed (cand0, found0) s = (cand0, found0) := by
        unfold evictLocStep
        rw [if_neg (by rw [hn']; simp), if_neg (by rw [hf']; simp)]
      rw [hstep]
      obtain ⟨hc1, hc2, hc3⟩ := h2 hf'
      refine ⟨?_, ?_, by simp [hf'], by simp [hf']⟩
      · rw [hf']
        exact iff_of_true rfl ⟨cand0, by simp [hc1], hc2⟩
      · intro _
        refine ⟨by simp [hc1], hc2, ?_⟩
        intro x hx hxn
        rcases List.mem_append.mp hx with hx | hx
        · exact hc3 x hx hxn
        · have : x = s := by simpa using hx
          rw [this] at hxn
          rw [hxn] at hn'
          exact absurd hn' (by simp)

theorem LocInv_fold (needed : Spool → Bool) (l : List Spool) :
    ∀ (seen : List Spool) (st : Spool × Bool),
      (∀ x ∈ seen, x.id ≠ 0) → (∀ x ∈ l, x.id ≠ 0) →
      LocInv needed seen st →
      LocInv needed (seen ++ l) (l.foldl (evictLocStep needed) st) := by
  induction l with
  | nil =>
      intro seen st _ _ h
      simpa using h
  | cons s t ih =>
      intro seen st hseen hl h
      rw [List.foldl_cons]
      have hstep := LocInv_step needed seen st s hseen h
      have happ : seen ++ s :: t = (seen ++ [s]) ++ t := by simp
      rw [happ]
      refine ih (seen ++ [s]) (evictLocStep needed st s) ?_ ?_ hstep
      · intro x hx
        rcases List.mem_append.mp hx with hx | hx
        · exact hseen x hx
        · have : x = s := by simpa using hx
          rw [this]
          exact hl s (by simp)
      · intro x hx
        exact hl x (by simp [hx])

theorem LocInv_init (needed : Spool → Bool) :
    LocInv needed [] (zeroSpool, false) := by
  refine ⟨by simp, by simp, fun _ _ => rfl, by simp⟩

theorem findOpenSlot_full (caps : List (String × Nat)) (printerLocs : List String)
    (loaded : List Spool)
    (hfull : ∀ loc ∈ printerLocs, capacityOf caps loc ≤ slotLoad loaded loc) :
    findOpenSlot caps printerLocs loaded = ("", 999) := by
  unfold findOpenSlot
  induction printerLocs with
  | nil => rfl
  | cons loc t ih =>
      rw [List.foldl_cons]
      have hcap := hfull loc (by simp)
      rw [if_neg (by omega)]
      exact ih (fun x hx => hfull x (by simp [hx]))

theorem evictNominate_spec (needed : Spool → Bool) (caps : List (String × Nat))
    (printerLocs : List String) (l1 l2 : List Spool)
    (hperm : l1.Perm l2)
    (hfull : ∀ loc ∈ printerLocs, capacityOf caps loc ≤ slotLoad l1 loc)
    (hloc : ∀ s ∈ l1, s.location ≠ "")
    (hid : ∀ s ∈ l1, s.id ≠ 0)
    (hex : ∃ s ∈ l1, s.location ∈ printerLocs) :
    ∃ c, evictNominate needed caps printerLocs l1 l2 = some c ∧
      c ∈ l1 ∧ c.location ∈ printerLocs ∧
      ((∃ s ∈ l1, s.location ∈ printerLocs ∧ needed s = false) → needed c = false) ∧
      (∀ s ∈ l1, s.location ∈ printerLocs → needed s = needed c →
        ¬ lruKey s.lastUsed < lruKey c.lastUsed) := by
  have hopen : findOpenSlot caps printerLocs l1 = ("", 999) :=
    findOpenSlot_full caps printerLocs l1 hfull
  have hS1loc : ∀ x ∈ slotSpools printerLocs l1, x.location ≠ "" := by
    intro x hx
    exact hloc x ((mem_slotSpools printerLocs l1 x).mp hx).1
  have hSel : SelInv needed (slotSpools printerLocs l1)
      (unloadLocSelect needed printerLocs l1) := by
    rw [unloadLocSelect_eq_foldl]
    have h := SelInv_fold needed (slotSpools printerLocs l1) [] ("", zeroSpool, false)
      (by simp) hS1loc (SelInv_init needed)
    simpa using h
  obtain ⟨s0, hs0, hs0loc⟩ := hex
  have hS1ne : slotSpools printerLocs l1 ≠ [] := by
    intro hh
    have := (mem_slotSpools printerLocs l1 s0).mpr ⟨hs0, hs0loc⟩
    rw [hh] at this
    simp at this
  obtain ⟨hi1, hi2, hi3, hi4⟩ := hSel
  -- the block-1 result: its candidate spool `m1` and the target location
  have hm1 : (unloadLocSelect needed printerLocs l1).2.1 ∈ slotSpools printerLocs l1 ∧
      (unloadLocSelect needed printerLocs l1).1 =
        (unloadLocSelect needed printerLocs l1).2.1.location ∧
      (∀ s ∈ slotSpools printerLocs l1,
        needed s = needed (unloadLocSelect needed printerLocs l1).2.1 →
          ¬ lruKey s.lastUsed <
            lruKey (unloadLocSelect needed printerLocs l1).2.1.lastUsed) ∧
      ((∃ x ∈ slotSpools printerLocs l1, needed x = false) →
        needed (unloadLocSelect needed printerLocs l1).2.1 = false) := by
    by_cases hfound : (unloadLocSelect needed printerLocs l1).2.2 = true
    · obtain ⟨ha, hb, hc, hd⟩ := hi2 hfound
      refine ⟨ha, hc, ?_, fun _ => hb⟩
      intro s hsS hsn
      refine hd s hsS ?_
      rw [hsn, hb]
    · have hfound' : (unloadLocSelect needed printerLocs l1).2.2 = false := by
        cases hh : (unloadLocSelect needed printerLocs l1).2.2
        · rfl
        · exact absurd hh hfound
      obtain ⟨ha, hb, hc⟩ := hi4 hfound' hS1ne
      refine ⟨ha, hb, ?_, ?_⟩
      · intro s hsS _
        exact hc s hsS
      · rintro ⟨x, hx, hxn⟩
        rw [hfound'] at hi1
        exact absurd (hi1.mpr ⟨x, hx, hxn⟩) (by simp)
  obtain ⟨hm1S, hm1T, hm1min, hm1non⟩ := hm1
  have hm1l1 : (unloadLocSelect needed printerLocs l1).2.1 ∈ l1 :=
    ((mem_slotSpools printerLocs l1 _).mp hm1S).1
  have hTloc : (unloadLocSelect needed printerLocs l1).1 ∈ printerLocs := by
    rw [hm1T]
    exact ((mem_slotSpools printerLocs l1 _).mp hm1S).2
  have hm1mem2 : (unloadLocSelect needed printerLocs l1).2.1 ∈
      l2.filter (fun s => s.location == (unloadLocSelect needed printerLocs l1).1) := by
    refine List.mem_filter.mpr ⟨hperm.subset hm1l1, ?_⟩
    rw [hm1T]
    simp
  have hlen : (l2.filter
      (fun s => s.location == (unloadLocSelect needed printerLocs l1).1)).length =
      slotLoad l1 (unloadLocSelect needed printerLocs l1).1 := by
    unfold slotLoad
    exact ((hperm.filter _).length_eq).symm
  have hge : (l2.filter
      (fun s => s.location == (unloadLocSelect needed printerLocs l1).1)).length ≥
      capacityOf caps (unloadLocSelect needed printerLocs l1).1 := by
    rw [hlen]
    exact hfull _ hTloc
  have hres : evictNominate needed caps printerLocs l1 l2 =
      some (evictFromLoc needed (l2.filter
        (fun s => s.location == (unloadLocSelect needed printerLocs l1).1))) := by
    unfold evictNominate
    rw [hopen]
    rw [if_pos rfl, if_pos hge]
  have hidT : ∀ x ∈ l2.filter
      (fun s => s.location == (unloadLocSelect needed printerLocs l1).1), x.id ≠ 0 := by
    intro x hx
    exact hid x (hperm.symm.subset (List.mem_filter.mp hx).1)
  have hLocI : LocInv needed
      (l2.filter (fun s => s.location == (unloadLocSelect needed printerLocs l1).1))
      ((l2.filter
        (fun s => s.location == (unloadLocSelect needed printerLocs l1).1)).foldl
        (evictLocStep needed) (zeroSpool, false)) := by
    have h := LocInv_fold needed
      (l2.filter (fun s => s.location == (unloadLocSelect needed printerLocs l1).1)) []
      (zeroSpool, false) (by simp) hidT (LocInv_init needed)
    simpa using h
  obtain ⟨hj1, hj2, hj3, hj4⟩ := hLocI
  have hsubS1 : ∀ x ∈ l2.filter
      (fun s => s.location == (unloadLocSelect needed printerLocs l1).1),
      x ∈ slotSpools printerLocs l1 := by
    intro x hx
    obtain ⟨hx1, hx2⟩ := List.mem_filter.mp hx
    refine (mem_slotSpools printerLocs l1 x).mpr ⟨hperm.symm.subset hx1, ?_⟩
    have hxloc : x.location = (unloadLocSelect needed printerLocs l1).1 := by
      simpa using hx2
    rw [hxloc]
    exact hTloc
  have hinT2ne : (l2.filter
      (fun s => s.location == (unloadLocSelect needed printerLocs l1).1)) ≠ [] := by
    intro hh
    rw [hh] at hm1mem2
    simp at hm1mem2
  refine ⟨evictFromLoc needed (l2.filter
    (fun s => s.location == (unloadLocSelect needed printerLocs l1).1)), hres, ?_⟩
  by_cases hfb : ((l2.filter
      (fun s => s.location == (unloadLocSelect needed printerLocs l1).1)).foldl
      (evictLocStep needed) (zeroSpool, false)).2 = true
  · -- block 2 found a non-needed candidate
    obtain ⟨hk1, hk2, hk3⟩ := hj2 hfb
    have hcmem : evictFromLoc needed (l2.filter
        (fun s => s.location == (unloadLocSelect needed printerLocs l1).1)) ∈
        l2.filter (fun s => s.location == (unloadLocSelect needed printerLocs l1).1) :=
      hk1
    have hk2' : needed (evictFromLoc needed (l2.filter
        (fun s => s.location == (unloadLocSelect needed printerLocs l1).1))) = false :=
      hk2
    have hcl1 : evictFromLoc needed (l2.filter
        (fun s => s.location == (unloadLocSelect needed printerLocs l1).1)) ∈ l1 :=
      hperm.symm.subset (List.mem_filter.mp hcmem).1
    have hcS1 := hsubS1 _ hcmem
    refine ⟨hcl1, ((mem_slotSpools printerLocs l1 _).mp hcS1).2, fun _ => hk2', ?_⟩
    -- global LRU minimality within the candidate's neededness class
    have hm1n : needed (unloadLocSelect needed printerLocs l1).2.1 = false := by
      obtain ⟨x, hx, hxn⟩ := hj1.mp hfb
      exact hm1non ⟨x, hsubS1 x hx, hxn⟩
    have hcm1 : ¬ lruKey (unloadLocSelect needed printerLocs l1).2.1.lastUsed <
        lruKey (evictFromLoc needed (l2.filter
          (fun s => s.location ==
            (unloadLocSelect needed printerLocs l1).1))).lastUsed :=
      hk3 _ hm1mem2 hm1n
    intro s hs hsloc hsn
    have hsS1 := (mem_slotSpools printerLocs l1 s).mpr ⟨hs, hsloc⟩
    have hsm1 : ¬ lruKey s.lastUsed <
        lruKey (unloadLocSelect needed printerLocs l1).2.1.lastUsed := by
      refine hm1min s hsS1 ?_
      rw [hsn, hk2', hm1n]
    intro hcon
    exact hsm1 (lt_of_lt_of_le hcon (not_lt.mp hcm1))
  · -- every slot spool is needed
    have hfb' : ((l2.filter
        (fun s => s.location == (unloadLocSelect needed printerLocs l1).1)).foldl
        (evictLocStep needed) (zeroSpool, false)).2 = false := by
      cases hh : ((l2.filter
          (fun s => s.location == (unloadLocSelect needed printerLocs l1).1)).foldl
          (evictLocStep needed) (zeroSpool, false)).2
      · rfl
      · exact absurd hh hfb
    have hnoS1 : ¬∃ x ∈ slotSpools printerLocs l1, needed x = false := by
      rintro ⟨x, hx, hxn⟩
      have hm1n : needed (unloadLocSelect needed printerLocs l1).2.1 = false :=
        hm1non ⟨x, hx, hxn⟩
      have := hj1.mpr ⟨_, hm1mem2, hm1n⟩
      rw [hfb'] at this
      exact absurd this (by simp)
    obtain ⟨hk1, hk2⟩ := hj4 hfb' hinT2ne
    have hcmem : evictFromLoc needed (l2.filter
        (fun s => s.location == (unloadLocSelect needed printerLocs l1).1)) ∈
        l2.filter (fun s => s.location == (unloadLocSelect needed printerLocs l1).1) :=
      hk1
    have hcl1 : evictFromLoc needed (l2.filter
        (fun s => s.location == (unloadLocSelect needed printerLocs l1).1)) ∈ l1 :=
      hperm.symm.subset (List.mem_filter.mp hcmem).1
    have hcS1 := hsubS1 _ hcmem
    refine ⟨hcl1, ((mem_slotSpools printerLocs l1 _).mp hcS1).2, ?_, ?_⟩
    · rintro ⟨x, hx, hxloc, hxn⟩
      exact absurd ⟨x, (mem_slotSpools printerLocs l1 x).mpr ⟨hx, hxloc⟩, hxn⟩ hnoS1
    · intro s hs hsloc hsn
      have hsS1 := (mem_slotSpools printerLocs l1 s).mpr ⟨hs, hsloc⟩
      have hneeds : needed s = true := by
        cases hh : needed s
        · exact absurd ⟨s, hsS1, hh⟩ hnoS1
        · rfl
      have hneedm1 : needed (unloadLocSelect needed printerLocs l1).2.1 = true := by
        cases hh : needed (unloadLocSelect needed printerLocs l1).2.1
        · exact absurd ⟨_, hm1S, hh⟩ hnoS1
        · rfl
      have hcm1 : ¬ lruKey (unloadLocSelect needed printerLocs l1).2.1.lastUsed <
          lruKey (evictFromLoc needed (l2.filter
            (fun s => s.location ==
              (unloadLocSelect needed printerLocs l1).1))).lastUsed :=
        hk2 _ hm1mem2
      have hsm1 : ¬ lruKey s.lastUsed <
          lruKey (unloadLocSelect needed printerLocs l1).2.1.lastUsed :=
        hm1min s hsS1 (by rw [hneeds, hneedm1])
      intro hcon
      exact hsm1 (lt_of_lt_of_le hcon (not_lt.mp hcm1))

/-- C1 counterexample: the plate being planned needs only filament 1; spool 2
(filament 2, slot "S2") is not required by that plate, yet the planner
nominates spool 1 whose filament IS required by the plate — because
filament 2 is in the needed-set through the next plate, so no spool counts
as "non-needed". -/
theorem evict_nominates_plate_required_spool :
    evictNominate (isNeededSpool (computeNeededIDs
        [⟨"todo", [⟨"todo", [⟨1, 10⟩]⟩, ⟨"todo", [⟨2, 5⟩]⟩]⟩] 0 0) [⟨1, 10⟩]) []
        ["S1", "S2"]
        [⟨1, 1, 0, 0, "S1", some 1, false⟩, ⟨2, 2, 0, 0, "S2", some 5, false⟩]
        [⟨1, 1, 0, 0, "S1", some 1, false⟩, ⟨2, 2, 0, 0, "S2", some 5, false⟩] =
      some ⟨1, 1, 0, 0, "S1", some 1, false⟩ ∧
      ([⟨1, 10⟩] : List PlateRequirement).any
        (fun r => (⟨1, 1, 0, 0, "S1", some 1, false⟩ : Spool).filamentId ==
          r.filamentID) = true ∧
      ([⟨1, 10⟩] : List PlateRequirement).any
        (fun r => (⟨2, 2, 0, 0, "S2", some 5, false⟩ : Spool).filamentId ==
          r.filamentID) = false := by
  decide

/-- C1 (amended): when every slot of the target printer is at capacity and
at least one occupying spool is *not needed* — neither in the needed-set nor
required by the plate being planned — the eviction selection nominates a
non-needed spool; in particular the nominee's filament ID is not required
by that plate. -/
theorem evict_never_nominates_plate_needed (neededIDs : List Int)
    (plateNeeds : List PlateRequirement) (caps : List (String × Nat))
    (printerLocs : List String) (l1 l2 : List Spool)
    (hperm : l1.Perm l2)
    (hfull : ∀ loc ∈ printerLocs, capacityOf caps loc ≤ slotLoad l1 loc)
    (hloc : ∀ s ∈ l1, s.location ≠ "")
    (hid : ∀ s ∈ l1, s.id ≠ 0)
    (hex : ∃ s ∈ l1, s.location ∈ printerLocs ∧
      isNeededSpool neededIDs plateNeeds s = false) :
    ∃ c, evictNominate (isNeededSpool neededIDs plateNeeds) caps printerLocs l1 l2 =
        some c ∧
      isNeededSpool neededIDs plateNeeds c = false ∧
      ∀ r ∈ plateNeeds, c.filamentId ≠ r.filamentID := by
  obtain ⟨s0, hs0, hs0l, hs0n⟩ := hex
  obtain ⟨c, hres, _, _, hnn, _⟩ :=
    evictNominate_spec (isNeededSpool neededIDs plateNeeds) caps printerLocs l1 l2
      hperm hfull hloc hid ⟨s0, hs0, hs0l⟩
  have hcn := hnn ⟨s0, hs0, hs0l, hs0n⟩
  refine ⟨c, hres, hcn, ?_⟩
  intro r hr hcon
  unfold isNeededSpool at hcn
  simp at hcn
  exact absurd hcon (hcn.2 r hr)

/-- C1 witness. -/
theorem evict_never_nominates_plate_needed_check :
    ∃ c, evictNominate (isNeededSpool [1] [⟨1, 10⟩]) [] ["S1", "S2"]
        [⟨1, 1, 100, 0, "S1", some 5, false⟩, ⟨2, 2, 100, 0, "S2", some 1, false⟩]
        [⟨1, 1, 100, 0, "S1", some 5, false⟩, ⟨2, 2, 100, 0, "S2", some 1, false⟩] =
        some c ∧
      isNeededSpool [1] [⟨1, 10⟩] c = false ∧
      ∀ r ∈ [(⟨1, 10⟩ : PlateRequirement)], c.filamentId ≠ r.filamentID :=
  evict_never_nominates_plate_needed [1] [⟨1, 10⟩] [] ["S1", "S2"]
    [⟨1, 1, 100, 0, "S1", some 5, false⟩, ⟨2, 2, 100, 0, "S2", some 1, false⟩]
    [⟨1, 1, 100, 0, "S1", some 5, false⟩, ⟨2, 2, 100, 0, "S2", some 1, false⟩]
    (List.Perm.refl _) (by decide) (by decide) (by decide) (by decide)

/-- C3: among the spools occupying the target printer's slots that have the
same neededness as the nominated spool, the nominee is the
least-recently-used: the planner's own LRU comparator never prefers another
spool of the class over it, and a never-used nominee is selected only when
every spool of its class has never been used. -/
theorem evict_lru_within_class (neededIDs : List Int)
    (plateNeeds : List PlateRequirement) (caps : List (String × Nat))
    (printerLocs : List String) (l1 l2 : List Spool)
    (hperm : l1.Perm l2)
    (hfull : ∀ loc ∈ printerLocs, capacityOf caps loc ≤ slotLoad l1 loc)
    (hloc : ∀ s ∈ l1, s.location ≠ "")
    (hid : ∀ s ∈ l1, s.id ≠ 0)
    (hex : ∃ s ∈ l1, s.location ∈ printerLocs) :
    ∃ c, evictNominate (isNeededSpool neededIDs plateNeeds) caps printerLocs l1 l2 =
        some c ∧
      (∀ s ∈ l1, s.location ∈ printerLocs →
        isNeededSpool neededIDs plateNeeds s = isNeededSpool neededIDs plateNeeds c →
        lruReplace c.lastUsed s.lastUsed = false) ∧
      (c.lastUsed = none →
        ∀ s ∈ l1, s.location ∈ printerLocs →
          isNeededSpool neededIDs plateNeeds s =
            isNeededSpool neededIDs plateNeeds c →
          s.lastUsed = none) := by
  obtain ⟨c, hres, _, _, _, hmin⟩ :=
    evictNominate_spec (isNeededSpool neededIDs plateNeeds) caps printerLocs l1 l2
      hperm hfull hloc hid hex
  refine ⟨c, hres, ?_, ?_⟩
  · intro s hs hsl hsn
    have h := hmin s hs hsl hsn
    cases hh : lruReplace c.lastUsed s.lastUsed
    · rfl
    · exact absurd ((lruReplace_iff _ _).mp hh) h
  · intro hcnone s hs hsl hsn
    have h := hmin s hs hsl hsn
    cases hsl2 : s.lastUsed with
    | none => rfl
    | some t =>
        exfalso
        refine h ?_
        rw [hcnone, hsl2]
        exact WithTop.coe_lt_top t

/-- C3 witness: the never-used spool 2 is kept; the used spool 1 is the LRU
nominee of its class. -/
theorem evict_lru_within_class_check :
    ∃ c, evictNominate (isNeededSpool [] []) [] ["S1", "S2"]
        [⟨1, 1, 100, 0, "S1", some 5, false⟩, ⟨2, 2, 100, 0, "S2", none, false⟩]
        [⟨1, 1, 100, 0, "S1", some 5, false⟩, ⟨2, 2, 100, 0, "S2", none, false⟩] =
        some c ∧
      (∀ s ∈ [(⟨1, 1, 100, 0, "S1", some 5, false⟩ : Spool),
          ⟨2, 2, 100, 0, "S2", none, false⟩],
        s.location ∈ ["S1", "S2"] →
        isNeededSpool [] [] s = isNeededSpool [] [] c →
        lruReplace c.lastUsed s.lastUsed = false) ∧
      (c.lastUsed = none →
        ∀ s ∈ [(⟨1, 1, 100, 0, "S1", some 5, false⟩ : Spool),
            ⟨2, 2, 100, 0, "S2", none, false⟩],
          s.location ∈ ["S1", "S2"] →
          isNeededSpool [] [] s = isNeededSpool [] [] c →
          s.lastUsed = none) :=
  evict_lru_within_class [] [] [] ["S1", "S2"]
    [⟨1, 1, 100, 0, "S1", some 5, false⟩, ⟨2, 2, 100, 0, "S2", none, false⟩]
    [⟨1, 1, 100, 0, "S1", some 5, false⟩, ⟨2, 2, 100, 0, "S2", none, false⟩]
    (List.Perm.refl _) (by decide) (by decide) (by decide) (by decide)

theorem hexVal_hexDigitChar (n : Nat) (h : n < 16) :
    hexVal (hexDigitChar n) = some n := by
  interval_cases n <;> rfl

theorem digChar_isDigit (d : Nat) (h : d < 10) : isDigitCh (digChar d) = true := by
  interval_cases d <;> rfl

theorem digitVal_digChar (d : Nat) (h : d < 10) : digitVal (digChar d) = d := by
  interval_cases d <;> rfl

theorem parseStrBody_u4 (h1 h2 h3 h4 : Char) (v1 v2 v3 v4 : Nat) (l : List Char)
    (e1 : hexVal h1 = some v1) (e2 : hexVal h2 = some v2)
    (e3 : hexVal h3 = some v3) (e4 : hexVal h4 = some v4) :
    parseStrBody ('\\' :: 'u' :: h1 :: h2 :: h3 :: h4 :: l) =
      (parseStrBody l).map
        (fun p => (Char.ofNat (4096 * v1 + 256 * v2 + 16 * v3 + v4) :: p.1, p.2)) := by
  have hstep : parseStrBody ('\\' :: 'u' :: h1 :: h2 :: h3 :: h4 :: l) =
      match hexVal h1, hexVal h2, hexVal h3, hexVal h4 with
      | some a, some b, some c2, some d =>
        (parseStrBody l).map
          (fun p => (Char.ofNat (4096 * a + 256 * b + 16 * c2 + d) :: p.1, p.2))
      | _, _, _, _ => none := rfl
  rw [hstep, e1, e2, e3, e4]

theorem parseStrBody_u00 (c : Char) (l q r : List Char) (hlt : c.toNat < 256)
    (h : parseStrBody l = some (q, r)) :
    parseStrBody ('\\' :: 'u' :: '0' :: '0' :: hexDigitChar (c.toNat / 16) ::
      hexDigitChar (c.toNat % 16) :: l) = some (c :: q, r) := by
  rw [parseStrBody_u4 '0' '0' (hexDigitChar (c.toNat / 16)) (hexDigitChar (c.toNat % 16))
    0 0 (c.toNat / 16) (c.toNat % 16) l rfl rfl
    (hexVal_hexDigitChar _ (by omega)) (hexVal_hexDigitChar _ (by omega))]
  rw [h]
  have harith : 4096 * 0 + 256 * 0 + 16 * (c.toNat / 16) + c.toNat % 16 = c.toNat := by
    omega
  rw [harith, Char.ofNat_toNat]
  rfl

theorem parseStrBody_escape (c : Char) (l q r : List Char)
    (h : parseStrBody l = some (q, r)) :
    parseStrBody (escapeChar c ++ l) = some (c :: q, r) := by
  by_cases h1 : c = '"'
  · subst h1
    have hesc : escapeChar '"' ++ l = '\\' :: '"' :: l := rfl
    have hs : parseStrBody ('\\' :: '"' :: l) =
        (parseStrBody l).map (fun p => ('"' :: p.1, p.2)) := by
      conv_lhs => rw [parseStrBody.eq_def]
      simp only [Char.reduceEq, reduceIte]
    rw [hesc, hs, h]
    rfl
  by_cases h2 : c = '\\'
  · subst h2
    have hesc : escapeChar '\\' ++ l = '\\' :: '\\' :: l := rfl
    have hs : parseStrBody ('\\' :: '\\' :: l) =
        (parseStrBody l).map (fun p => ('\\' :: p.1, p.2)) := by
      conv_lhs => rw [parseStrBody.eq_def]
      simp only [Char.reduceEq, reduceIte]
    rw [hesc, hs, h]
    rfl
  by_cases h3 : c = '\n'
  · subst h3
    have hesc : escapeChar '\n' ++ l = '\\' :: 'n' :: l := rfl
    have hs : parseStrBody ('\\' :: 'n' :: l) =
        (parseStrBody l).map (fun p => ('\n' :: p.1, p.2)) := by
      conv_lhs => rw [parseStrBody.eq_def]
      simp only [Char.reduceEq, reduceIte]
    rw [hesc, hs, h]
    rfl
  by_cases h4 : c = '\r'
  · subst h4
    have hesc : escapeChar '\r' ++ l = '\\' :: 'r' :: l := rfl
    have hs : parseStrBody ('\\' :: 'r' :: l) =
        (parseStrBody l).map (fun p => ('\r' :: p.1, p.2)) := by
      conv_lhs => rw [parseStrBody.eq_def]
      simp only [Char.reduceEq, reduceIte]
    rw [hesc, hs, h]
    rfl
  by_cases h5 : c = '\t'
  · subst h5
    have hesc : escapeChar '\t' ++ l = '\\' :: 't' :: l := rfl
    have hs : parseStrBody ('\\' :: 't' :: l) =
        (parseStrBody l).map (fun p => ('\t' :: p.1, p.2)) := by
      conv_lhs => rw [parseStrBody.eq_def]
      simp only [Char.reduceEq, reduceIte]
    rw [hesc, hs, h]
    rfl
  by_cases h6 : c = '<' ∨ c = '>' ∨ c = '&'
  · have he : escapeChar c =
        ['\\', 'u', '0', '0', hexDigitChar (c.toNat / 16), hexDigitChar (c.toNat % 16)] := by
      unfold escapeChar
      rw [if_neg h1, if_neg h2, if_neg h3, if_neg h4, if_neg h5, if_pos h6]
    have hlt : c.toNat < 256 := by
      rcases h6 with h6 | h6 | h6 <;> subst h6 <;> decide
    have hform : (['\\', 'u', '0', '0', hexDigitChar (c.toNat / 16),
        hexDigitChar (c.toNat % 16)] : List Char) ++ l =
        '\\' :: 'u' :: '0' :: '0' :: hexDigitChar (c.toNat / 16) ::
          hexDigitChar (c.toNat % 16) :: l := rfl
    rw [he, hform]
    exact parseStrBody_u00 c l q r hlt h
  by_cases h7 : c.toNat < 0x20
  · have he : escapeChar c =
        ['\\', 'u', '0', '0', hexDigitChar (c.toNat / 16), hexDigitChar (c.toNat % 16)] := by
      unfold escapeChar
      rw [if_neg h1, if_neg h2, if_neg h3, if_neg h4, if_neg h5, if_neg h6, if_pos h7]
    have hform : (['\\', 'u', '0', '0', hexDigitChar (c.toNat / 16),
        hexDigitChar (c.toNat % 16)] : List Char) ++ l =
        '\\' :: 'u' :: '0' :: '0' :: hexDigitChar (c.toNat / 16) ::
          hexDigitChar (c.toNat % 16) :: l := rfl
    rw [he, hform]
    exact parseStrBody_u00 c l q r (by omega) h
  by_cases h8 : c.toNat = 0x2028 ∨ c.toNat = 0x2029
  · have he : escapeChar c = ['\\', 'u', '2', '0', '2', hexDigitChar (c.toNat % 16)] := by
      unfold escapeChar
      rw [if_neg h1, if_neg h2, if_neg h3, if_neg h4, if_neg h5, if_neg h6, if_neg h7,
        if_pos h8]
    have hform : (['\\', 'u', '2', '0', '2', hexDigitChar (c.toNat % 16)] : List Char) ++ l =
        '\\' :: 'u' :: '2' :: '0' :: '2' :: hexDigitChar (c.toNat % 16) :: l := rfl
    rw [he, hform]
    rw [parseStrBody_u4 '2' '0' '2' (hexDigitChar (c.toNat % 16)) 2 0 2 (c.toNat % 16) l
      (by decide) (by decide) (by decide) (hexVal_hexDigitChar _ (by omega))]
    rw [h]
    have harith : 4096 * 2 + 256 * 0 + 16 * 2 + c.toNat % 16 = c.toNat := by
      rcases h8 with h8 | h8 <;> omega
    rw [harith, Char.ofNat_toNat]
    rfl
  · have he : escapeChar c = [c] := by
      unfold escapeChar
      rw [if_neg h1, if_neg h2, if_neg h3, if_neg h4, if_neg h5, if_neg h6, if_neg h7,
        if_neg h8]
    have hform : ([c] : List Char) ++ l = c :: l := rfl
    have hstep : parseStrBody (c :: l) =
        (parseStrBody l).map (fun p => (c :: p.1, p.2)) := by
      conv_lhs => rw [parseStrBody.eq_def]
      simp only [h1, h2, if_false]
    rw [he, hform, hstep, h]
    rfl

theorem parseStrBody_render (cs : List Char) (r : List Char) :
    parseStrBody (cs.flatMap escapeChar ++ ('"' :: r)) = some (cs, r) := by
  induction cs with
  | nil =>
      simp only [List.flatMap_nil, List.nil_append]
      conv_lhs => rw [parseStrBody.eq_def]
      simp only [Char.reduceEq, reduceIte]
  | cons c tl ih =>
      simp only [List.flatMap_cons, List.append_assoc]
      exact parseStrBody_escape c _ tl r ih

theorem parseString_render (s : String) (r : List Char) :
    parseString (renderString s ++ r) = some (s, r) := by
  have hform : renderString s ++ r = '"' :: (s.data.flatMap escapeChar ++ ('"' :: r)) := by
    unfold renderString
    simp [List.append_assoc]
  rw [hform]
  have hstep : parseString ('"' :: (s.data.flatMap escapeChar ++ ('"' :: r))) =
      (parseStrBody (s.data.flatMap escapeChar ++ ('"' :: r))).map
        (fun p => (String.mk p.1, p.2)) := by
    rw [parseString.eq_def]
    simp only [Char.reduceEq, reduceIte]
  rw [hstep, parseStrBody_render]
  rfl

theorem parseDigits_run (ds : List Nat) (r : List Char)
    (hds : ∀ d ∈ ds, d < 10)
    (hr : ∀ c, r.head? = some c → isDigitCh c = false) :
    parseDigits (ds.map digChar ++ r) = (ds, r) := by
  induction ds with
  | nil =>
      simp only [List.map_nil, List.nil_append]
      cases r with
      | nil => rfl
      | cons c rest =>
          have hc : isDigitCh c = false := hr c rfl
          simp [parseDigits, hc]
  | cons d tl ih =>
      have hd : isDigitCh (digChar d) = true :=
        digChar_isDigit d (hds d (List.mem_cons_self d tl))
      have ih' := ih (fun x hx => hds x (List.mem_cons_of_mem d hx))
      simp [parseDigits, hd, ih', digitVal_digChar d (hds d (List.mem_cons_self d tl))]

theorem foldl_digits_eq (ds : List Nat) (a : Nat) :
    ds.reverse.foldl (fun x d => 10 * x + d) a = a * 10 ^ ds.length + Nat.ofDigits 10 ds := by
  induction ds generalizing a with
  | nil => simp [Nat.ofDigits_nil]
  | cons d tl ih =>
      rw [List.reverse_cons, List.foldl_append, ih]
      simp only [List.foldl_cons, List.foldl_nil]
      rw [Nat.ofDigits_cons, List.length_cons, pow_succ]
      ring

theorem renderNat_digits (m : Nat) : ∀ c ∈ renderNat m, isDigitCh c = true := by
  intro c hc
  unfold renderNat at hc
  by_cases hm : m = 0
  · rw [if_pos hm] at hc
    simp at hc
    subst hc
    rfl
  · rw [if_neg hm] at hc
    simp only [List.mem_map] at hc
    rcases hc with ⟨d, hd, hdc⟩
    subst hdc
    exact digChar_isDigit d (Nat.digits_lt_base (by norm_num) (List.mem_reverse.mp hd))

theorem renderNat_ne_nil (m : Nat) : renderNat m ≠ [] := by
  unfold renderNat
  by_cases hm : m = 0
  · rw [if_pos hm]
    simp
  · rw [if_neg hm]
    simp [Nat.digits_ne_nil_iff_ne_zero, hm]

theorem parseNat_render_aux (ds : List Nat) (m : Nat) (r : List Char)
    (hmap : renderNat m = ds.map digChar) (hds : ∀ d ∈ ds, d < 10)
    (hne : ds ≠ []) (hval : natFromDigits ds = m)
    (hr : ∀ c, r.head? = some c → isDigitCh c = false) :
    parseNat (renderNat m ++ r) = some (m, r) := by
  rw [hmap]
  unfold parseNat
  rw [parseDigits_run ds r hds hr]
  simp [hne, hval]

theorem parseNat_render (m : Nat) (r : List Char)
    (hr : ∀ c, r.head? = some c → isDigitCh c = false) :
    parseNat (renderNat m ++ r) = some (m, r) := by
  by_cases hm : m = 0
  · subst hm
    refine parseNat_render_aux [0] 0 r (by decide) (by simp) (by simp) rfl hr
  · refine parseNat_render_aux ((Nat.digits 10 m).reverse) m r ?_ ?_ ?_ ?_ hr
    · unfold renderNat
      rw [if_neg hm]
    · intro d hd
      exact Nat.digits_lt_base (by norm_num) (List.mem_reverse.mp hd)
    · simp [Nat.digits_ne_nil_iff_ne_zero, hm]
    · unfold natFromDigits
      rw [foldl_digits_eq]
      simp [Nat.ofDigits_digits]

theorem parseInt_render (n : Int) (r : List Char)
    (hr : ∀ c, r.head? = some c → isDigitCh c = false) :
    parseInt (renderInt n ++ r) = some (n, r) := by
  by_cases hn : n < 0
  · have hform : renderInt n = '-' :: renderNat n.natAbs := by
      unfold renderInt
      rw [if_pos hn]
    rw [hform]
    unfold parseInt
    rw [List.cons_append]
    rw [if_pos (by simp)]
    simp only [List.tail_cons]
    rw [parseNat_render n.natAbs r hr]
    simp only [Option.map_some']
    have hval : -((n.natAbs : Int)) = n := by omega
    rw [hval]
  · have hform : renderInt n = renderNat n.toNat := by
      unfold renderInt
      rw [if_neg hn]
    rw [hform]
    unfold parseInt
    rw [if_neg ?hd]
    case hd =>
      intro hcontra
      cases hE : renderNat n.toNat with
      | nil => exact renderNat_ne_nil n.toNat hE
      | cons c tl =>
          rw [hE] at hcontra
          simp only [List.cons_append, List.head?_cons, Option.some.injEq] at hcontra
          have hdig := renderNat_digits n.toNat c (by rw [hE]; exact List.mem_cons_self c tl)
          rw [hcontra] at hdig
          exact absurd hdig (by decide)
    rw [parseNat_render n.toNat r hr]
    simp only [Option.map_some']
    have hval : ((n.toNat : Nat) : Int) = n := by omega
    rw [hval]

theorem joinComma_map_cons {α : Type} (g : α → List Char) (x : α) (xs : List α) :
    joinComma ((x :: xs).map g) = g x ++ xs.flatMap (fun y => ',' :: g y) := by
  induction xs generalizing x with
  | nil => simp [joinComma]
  | cons y ys ih =>
      have hstep : joinComma ((x :: y :: ys).map g) =
          g x ++ ',' :: joinComma ((y :: ys).map g) := rfl
      rw [hstep, ih]
      simp

theorem renderInt_ne_nil (n : Int) : renderInt n ≠ [] := by
  unfold renderInt
  by_cases hn : n < 0
  · rw [if_pos hn]
    simp
  · rw [if_neg hn]
    exact renderNat_ne_nil n.toNat

theorem renderInt_head (n : Int) (c : Char) (hc : (renderInt n).head? = some c) :
    c = '-' ∨ isDigitCh c = true := by
  unfold renderInt at hc
  by_cases hn : n < 0
  · rw [if_pos hn] at hc
    simp only [List.head?_cons, Option.some.injEq] at hc
    left
    exact hc.symm
  · rw [if_neg hn] at hc
    right
    cases hE : renderNat n.toNat with
    | nil => exact absurd hE (renderNat_ne_nil n.toNat)
    | cons d tlr =>
        rw [hE] at hc
        simp only [List.head?_cons, Option.some.injEq] at hc
        rw [← hc]
        exact renderNat_digits n.toNat d (by rw [hE]; exact List.mem_cons_self d tlr)

theorem intTail_head_not_digit (tl : List Int) (r : List Char) :
    ∀ c, ((tl.flatMap (fun n => ',' :: renderInt n)) ++ (']' :: r)).head? = some c →
      isDigitCh c = false := by
  cases tl with
  | nil =>
      intro c hc
      simp only [List.flatMap_nil, List.nil_append, List.head?_cons,
        Option.some.injEq] at hc
      rw [← hc]
      decide
  | cons z zs =>
      intro c hc
      simp only [List.flatMap_cons, List.cons_append, List.append_assoc,
        List.head?_cons, Option.some.injEq] at hc
      rw [← hc]
      decide

theorem parseIntListTailF_render (xs : List Int) : ∀ (f : Nat) (r : List Char),
    xs.length < f →
    parseIntListTailF f (xs.flatMap (fun n => ',' :: renderInt n) ++ (']' :: r)) =
      some (xs, r) := by
  induction xs with
  | nil =>
      intro f r hf
      cases f with
      | zero => omega
      | succ f =>
          simp only [List.flatMap_nil, List.nil_append]
          simp [parseIntListTailF]
  | cons x tl ih =>
      intro f r hf
      cases f with
      | zero => omega
      | succ f =>
          simp only [List.flatMap_cons, List.cons_append, List.append_assoc]
          rw [parseIntListTailF]
          rw [if_neg (by simp), if_pos (by simp)]
          simp only [List.tail_cons]
          rw [parseInt_render x _ (intTail_head_not_digit tl r)]
          simp only [Option.some_bind]
          rw [ih f r (by simp at hf ⊢; omega)]
          rfl

theorem parseIntListF_render (v : List Int) (f : Nat) (r : List Char) (hf : v.length < f) :
    parseIntListF f (renderIntList v ++ r) = some (v, r) := by
  cases v with
  | nil =>
      have hform : renderIntList ([] : List Int) ++ r = '[' :: ']' :: r := rfl
      rw [hform]
      simp [parseIntListF]
  | cons x tl =>
      have hform : renderIntList (x :: tl) ++ r =
          '[' :: (renderInt x ++ (tl.flatMap (fun n => ',' :: renderInt n) ++ (']' :: r))) := by
        unfold renderIntList
        rw [joinComma_map_cons]
        simp [List.append_assoc]
      rw [hform]
      rw [parseIntListF.eq_def]
      simp only [Char.reduceEq, reduceIte]
      have hhd : ¬((renderInt x ++ (tl.flatMap (fun n => ',' :: renderInt n) ++
          (']' :: r))).head? = some ']') := by
        intro hcon
        cases hE : renderInt x with
        | nil => exact absurd hE (renderInt_ne_nil x)
        | cons c tlr =>
            rw [hE, List.cons_append, List.head?_cons] at hcon
            have hcc : c = ']' := by
              simpa using hcon
            have hni := renderInt_head x c (by rw [hE]; rfl)
            rw [hcc] at hni
            rcases hni with h9 | h9
            · exact absurd h9 (by decide)
            · exact absurd h9 (by decide)
      rw [if_neg hhd]
      rw [parseInt_render x _ (intTail_head_not_digit tl r)]
      simp only [Option.some_bind]
      rw [parseIntListTailF_render tl f r (by simp at hf ⊢; omega)]
      rfl

theorem parseMembersTailF_render (tl : List (String × List Int)) :
    ∀ (f : Nat) (r : List Char),
    tl.length + (tl.flatMap (fun p => p.2)).length < f →
    parseMembersTailF f (tl.flatMap (fun p => ',' :: renderMember p) ++ ('}' :: r)) =
      some (tl, r) := by
  induction tl with
  | nil =>
      intro f r hf
      cases f with
      | zero => omega
      | succ f =>
          simp only [List.flatMap_nil, List.nil_append]
          simp [parseMembersTailF]
  | cons p tl2 ih =>
      intro f r hf
      cases f with
      | zero => omega
      | succ f =>
          simp only [List.flatMap_cons, List.cons_append, List.append_assoc]
          rw [parseMembersTailF]
          rw [if_neg (by simp), if_pos (by simp)]
          simp only [List.tail_cons]
          have hform : renderMember p ++
              ((tl2.flatMap (fun q => ',' :: renderMember q)) ++ ('}' :: r)) =
              renderString p.1 ++ (':' :: (renderIntList p.2 ++
                ((tl2.flatMap (fun q => ',' :: renderMember q)) ++ ('}' :: r)))) := by
            unfold renderMember
            simp [List.append_assoc]
          rw [hform]
          rw [parseString_render p.1 _]
          simp only [Option.some_bind]
          rw [if_pos (by simp)]
          simp only [List.tail_cons]
          have hf2 : p.2.length <
              f ∧ tl2.length + (tl2.flatMap (fun q => q.2)).length < f := by
            simp only [List.length_cons, List.flatMap_cons, List.length_append] at hf
            omega
          rw [parseIntListF_render p.2 f _ hf2.1]
          simp only [Option.some_bind]
          rw [ih f r hf2.2]
          rfl

theorem parseOrdersChars_render (m : List (String × List Int)) (f : Nat) (r : List Char)
    (hf : m.length + (m.flatMap (fun p => p.2)).length < f) :
    parseOrdersChars f (renderOrdersChars m ++ r) = some (m, r) := by
  cases m with
  | nil =>
      have hform : renderOrdersChars [] ++ r = '{' :: '}' :: r := rfl
      rw [hform]
      simp [parseOrdersChars]
  | cons p tl =>
      have hform : renderOrdersChars (p :: tl) ++ r =
          '{' :: (renderString p.1 ++ (':' :: (renderIntList p.2 ++
            ((tl.flatMap (fun q => ',' :: renderMember q)) ++ ('}' :: r))))) := by
        unfold renderOrdersChars
        rw [joinComma_map_cons]
        unfold renderMember
        simp [List.append_assoc]
      rw [hform]
      rw [parseOrdersChars.eq_def]
      simp only [Char.reduceEq, reduceIte]
      have hq : (renderString p.1 ++ (':' :: (renderIntList p.2 ++
          ((tl.flatMap (fun q => ',' :: renderMember q)) ++ ('}' :: r))))).head? =
          some '"' := by
        unfold renderString
        rfl
      rw [if_neg (by rw [hq]; decide)]
      rw [parseString_render p.1 _]
      simp only [Option.some_bind]
      rw [if_pos (by simp)]
      simp only [List.tail_cons]
      have hf2 : p.2.length < f ∧ tl.length + (tl.flatMap (fun q => q.2)).length < f := by
        simp only [List.length_cons, List.flatMap_cons, List.length_append] at hf
        omega
      rw [parseIntListF_render p.2 f _ hf2.1]
      simp only [Option.some_bind]
      rw [parseMembersTailF_render tl f r hf2.2]
      rfl

theorem joinComma_length_ge (ps : List (List Char)) (h : ∀ x ∈ ps, 1 ≤ x.length) :
    ps.length ≤ (joinComma ps).length := by
  induction ps with
  | nil => simp [joinComma]
  | cons x xs ih =>
      cases xs with
      | nil => simpa [joinComma] using h x (by simp)
      | cons y ys =>
          have hstep : joinComma (x :: y :: ys) = x ++ ',' :: joinComma (y :: ys) := rfl
          have hx := h x (by simp)
          have ih2 := ih (fun z hz => h z (List.mem_cons_of_mem x hz))
          rw [hstep]
          simp only [List.length_append, List.length_cons] at ih2 ⊢
          omega

theorem renderMember_length_ge (p : String × List Int) :
    1 + p.2.length ≤ (renderMember p).length := by
  have hjc := joinComma_length_ge (p.2.map renderInt) ?pieces
  case pieces =>
    intro x hx
    simp only [List.mem_map] at hx
    obtain ⟨n, _, rfl⟩ := hx
    exact List.length_pos.mpr (renderInt_ne_nil n)
  unfold renderMember renderString renderIntList
  simp only [List.length_map] at hjc
  simp [List.length_append]
  omega

theorem members_measure_le (m : List (String × List Int)) :
    m.length + (m.flatMap (fun p => p.2)).length ≤
      (joinComma (m.map renderMember)).length := by
  induction m with
  | nil => simp [joinComma]
  | cons p tl ih =>
      cases tl with
      | nil =>
          have := renderMember_length_ge p
          simp only [List.map_cons, List.map_nil, List.flatMap_cons, List.flatMap_nil]
          simp [joinComma]
          omega
      | cons q tl2 =>
          have hstep : joinComma ((p :: q :: tl2).map renderMember) =
              renderMember p ++ ',' :: joinComma ((q :: tl2).map renderMember) := rfl
          have hp := renderMember_length_ge p
          rw [hstep]
          simp only [List.flatMap_cons, List.length_cons, List.length_append] at ih ⊢
          omega

theorem renderOrders_measure_lt (m : List (String × List Int)) :
    m.length + (m.flatMap (fun p => p.2)).length < (renderOrdersChars m).length := by
  have h := members_measure_le m
  unfold renderOrdersChars
  simp only [List.length_cons, List.length_append, List.length_singleton]
  omega

theorem parseOrders_save (m : List (String × List Int)) :
    parseOrders (saveOrdersValue m) = some m := by
  unfold parseOrders
  have hdata : (saveOrdersValue m).data = renderOrdersChars m := rfl
  rw [hdata]
  have h1 : parseOrdersChars (renderOrdersChars m).length (renderOrdersChars m) =
      some (m, []) := by
    have h2 := parseOrdersChars_render m (renderOrdersChars m).length []
      (renderOrders_measure_lt m)
    rwa [List.append_nil] at h2
  rw [h1]

theorem loadOrders_save (m : List (String × List Int)) :
    loadOrdersWire (saveOrdersWire m) = some m := by
  unfold loadOrdersWire saveOrdersWire
  have h1 : parseString (renderString (saveOrdersValue m)) = some (saveOrdersValue m, []) := by
    have h2 := parseString_render (saveOrdersValue m) []
    rwa [List.append_nil] at h2
  rw [h1]
  show (if saveOrdersValue m = "" then some [] else parseOrders (saveOrdersValue m)) = some m
  have hne : saveOrdersValue m ≠ "" := by
    intro hcon
    have hd := congrArg String.data hcon
    rw [show (saveOrdersValue m).data = renderOrdersChars m from rfl] at hd
    unfold renderOrdersChars at hd
    simp at hd
  rw [if_neg hne]
  exact parseOrders_save m

/-- C5: saving an order list — marshal the location-to-IDs map to JSON (keys in
sorted order, as Go marshals a map), wrap the JSON text as the settings value
string, and store that string as a JSON string literal — then loading it back —
unwrap the string literal, and parse the value string as the object — returns
the original list, for every order list in canonical form (keys strictly
sorted, the association-list embedding of the Go map) whose ID arrays contain
no duplicate ID across the whole map. -/
theorem orders_load_save_id (m : List (String × List Int))
    (hkeys : m.Pairwise (fun a b => a.1.data < b.1.data))
    (hids : (m.flatMap (fun p => p.2)).Nodup) :
    loadOrdersWire (saveOrdersWire m) = some m :=
  loadOrders_save m

/-- Witness for C5 at a concrete order list. -/
theorem orders_load_save_id_check :
    ([("A", [1, 2]), ("B", [3])] : List (String × List Int)).Pairwise
      (fun a b => a.1.data < b.1.data) ∧
    (([("A", [1, 2]), ("B", [3])] : List (String × List Int)).flatMap
      (fun p => p.2)).Nodup ∧
    loadOrdersWire (saveOrdersWire [("A", [1, 2]), ("B", [3])]) =
      some [("A", [1, 2]), ("B", [3])] :=
  ⟨by decide, by decide,
    orders_load_save_id [("A", [1, 2]), ("B", [3])] (by decide) (by decide)⟩

end Fil
